import Mathlib

/-!
Verification development for the sophia-who holon identity manager.

The Go sources are shallowly embedded as executable Lean definitions:

* pkg/identity (identity.go): the Identity record (struct Identity, New).
* pkg/identity/writer.go: the HOLON.md template renderer (WriteHolonMD and
  holonTemplate), the frontmatter decoder (ParseFrontmatter), the tree
  scanner (ScanAllWithPaths / FindAllWithPaths / FindAll) and the resolver
  (FindByUUID).
* internal/cli/commands.go: the aggregated listing (RunList).
* internal/server (server.go): CreateIdentity.

Strings are processed as lists of characters (Go slices strings by byte
index, but every index the code computes is a character boundary of the
sliced region, so character-based slicing agrees).  The filesystem is a
tree value; filepath.WalkDir is embedded as a fold over that tree carrying
the traversal-control values nil / SkipDir / SkipAll that the two walk
callbacks in the source actually return.

The YAML library (gopkg.in/yaml.v3) is not part of the repository; it is
modelled by an executable subset parser (yamlUnmarshal below) covering the
line-oriented mappings this program reads and writes: comment and blank
lines, double-quoted scalars with Go-style escapes, flow sequences of
double-quoted scalars, and plain scalars.  Where the real library would
accept more inputs (plain multi-line values, anchors, nested blocks, block
sequences) the model rejects, and the model also rejects plain scalars
that yaml.v3 would resolve as non-strings (null / bool keywords, numeric
shapes), since decoding those into a string field fails there.
-/

/-- Embedding of the Go struct Identity (pkg/identity/identity.go).  Go's
zero value for every field is the empty string / nil slice; nil and empty
slices are both embedded as the empty list. -/
structure Identity where
  UUID : String := ""
  GivenName : String := ""
  FamilyName : String := ""
  Motto : String := ""
  Composer : String := ""
  Clade : String := ""
  Status : String := ""
  Born : String := ""
  Parents : List String := []
  Reproduction : String := ""
  Aliases : List String := []
  GeneratedBy : String := ""
  Lang : String := ""
  ProtoStatus : String := ""
deriving DecidableEq, Repr

/-- pkg/identity/writer.go LocatedIdentity: a parsed Identity with the
HOLON.md path it came from. -/
structure LocatedIdentity where
  Identity : Identity
  Path : String
deriving DecidableEq, Repr

/-- pkg/identity/writer.go ScanProgress. -/
structure ScanProgress where
  ScannedFiles : Nat
  HolonsFound : Nat
deriving DecidableEq, Repr

/-- One character of Go's %q rendering (strconv.Quote), used by the quote
and joinQuoted template helpers in writer.go.  ASCII printable characters
other than the quote and the backslash are emitted raw, the named escapes
and \xHH are used for ASCII control characters.  Non-ASCII characters are
emitted raw; Go additionally escapes the non-printable ones as \u/\U,
which yaml.v3 decodes back to the same character, so the composition
decode-after-encode is unaffected by this simplification. -/
def goQuoteChar (c : Char) : List Char :=
  if c = '"' then ['\\', '"']
  else if c = '\\' then ['\\', '\\']
  else if 0x20 ≤ c.toNat ∧ c.toNat ≤ 0x7e then [c]
  else if c = Char.ofNat 7 then ['\\', 'a']
  else if c = Char.ofNat 8 then ['\\', 'b']
  else if c = Char.ofNat 12 then ['\\', 'f']
  else if c = '\n' then ['\\', 'n']
  else if c = '\r' then ['\\', 'r']
  else if c = '\t' then ['\\', 't']
  else if c = Char.ofNat 11 then ['\\', 'v']
  else if c.toNat < 0x20 ∨ c.toNat = 0x7f then
    ['\\', 'x', "0123456789abcdef".toList.getD (c.toNat / 16) '0',
      "0123456789abcdef".toList.getD (c.toNat % 16) '0']
  else [c]

/-- The body of a %q-quoted string (everything between the two quotes). -/
def goQuoteInner : List Char → List Char
  | [] => []
  | c :: rest => goQuoteChar c ++ goQuoteInner rest

/-- Go fmt.Sprintf %q of a string: the quoted body wrapped in quotes. -/
def goQuoteStr (s : String) : List Char :=
  '"' :: (goQuoteInner s.toList ++ ['"'])

/-- writer.go joinQuoted: %q of each element, joined by a comma-space. -/
def joinQuoted : List String → List Char
  | [] => []
  | [s] => goQuoteStr s
  | s :: rest => goQuoteStr s ++ (", ".toList ++ joinQuoted rest)

/-- The lines of the frontmatter block of holonTemplate (writer.go),
between the opening and closing delimiter lines, in template order. -/
def fmLines (id : Identity) : List (List Char) :=
  [ "# Holon Identity v1".toList,
    "uuid: ".toList ++ goQuoteStr id.UUID,
    "given_name: ".toList ++ goQuoteStr id.GivenName,
    "family_name: ".toList ++ goQuoteStr id.FamilyName,
    "motto: ".toList ++ goQuoteStr id.Motto,
    "composer: ".toList ++ goQuoteStr id.Composer,
    "clade: ".toList ++ goQuoteStr id.Clade,
    "status: ".toList ++ id.Status.toList,
    "born: ".toList ++ goQuoteStr id.Born,
    [],
    "# Lineage".toList,
    "parents: [".toList ++ (joinQuoted id.Parents ++ [']']),
    "reproduction: ".toList ++ goQuoteStr id.Reproduction,
    [],
    "# Optional".toList,
    "aliases: [".toList ++ (joinQuoted id.Aliases ++ [']']),
    [],
    "# Metadata".toList,
    "generated_by: ".toList ++ goQuoteStr id.GeneratedBy,
    "lang: ".toList ++ goQuoteStr id.Lang,
    "proto_status: ".toList ++ id.ProtoStatus.toList ]

/-- Join lines with newline separators (no trailing newline). -/
def nlJoin : List (List Char) → List Char
  | [] => []
  | [l] => l
  | l :: rest => l ++ ('\n' :: nlJoin rest)

/-- The markdown body holonTemplate generates after the closing
delimiter line. -/
def holonBody (id : Identity) : List Char :=
  "\n\n# ".toList ++ id.GivenName.toList ++ (" ".toList ++ id.FamilyName.toList) ++
    "\n\n> *\"".toList ++ id.Motto.toList ++
    "\"*\n\n## Description\n\n<Describe what this holon does.>\n\n## Introspection Notes\n\n<Any assumptions or ambiguities noted during creation.>\n".toList

/-- The full file content WriteHolonMD (writer.go) renders for an
Identity: the executed holonTemplate. -/
def renderHolonMD (id : Identity) : String :=
  ⟨"---\n".toList ++ nlJoin (fmLines id) ++ ("\n---".toList ++ holonBody id)⟩

/-- Value of a hexadecimal digit character. -/
def hexVal (c : Char) : Option Nat :=
  if '0' ≤ c ∧ c ≤ '9' then some (c.toNat - 48)
  else if 'a' ≤ c ∧ c ≤ 'f' then some (c.toNat - 87)
  else if 'A' ≤ c ∧ c ≤ 'F' then some (c.toNat - 55)
  else none

/-- Scan the tail of a double-quoted YAML scalar (the part after the
opening quote): returns the decoded content and the input remaining after
the closing quote.  Handles the escapes Go's %q emits (plus \0 and \e);
fails on an unterminated scalar or unknown escape. -/
def dqCore : List Char → Option (List Char × List Char)
  | [] => none
  | c :: rest =>
    if c = '"' then some ([], rest)
    else if c = '\\' then
      match rest with
      | [] => none
      | e :: r =>
        if e = '"' then (dqCore r).map (fun p => ('"' :: p.1, p.2))
        else if e = '\\' then (dqCore r).map (fun p => ('\\' :: p.1, p.2))
        else if e = 'a' then (dqCore r).map (fun p => (Char.ofNat 7 :: p.1, p.2))
        else if e = 'b' then (dqCore r).map (fun p => (Char.ofNat 8 :: p.1, p.2))
        else if e = 'f' then (dqCore r).map (fun p => (Char.ofNat 12 :: p.1, p.2))
        else if e = 'n' then (dqCore r).map (fun p => ('\n' :: p.1, p.2))
        else if e = 'r' then (dqCore r).map (fun p => ('\r' :: p.1, p.2))
        else if e = 't' then (dqCore r).map (fun p => ('\t' :: p.1, p.2))
        else if e = 'v' then (dqCore r).map (fun p => (Char.ofNat 11 :: p.1, p.2))
        else if e = '0' then (dqCore r).map (fun p => (Char.ofNat 0 :: p.1, p.2))
        else if e = 'e' then (dqCore r).map (fun p => (Char.ofNat 27 :: p.1, p.2))
        else if e = 'x' then
          match r with
          | h1 :: h2 :: r2 =>
            match hexVal h1, hexVal h2 with
            | some a, some b =>
              (dqCore r2).map (fun p => (Char.ofNat (16 * a + b) :: p.1, p.2))
            | _, _ => none
          | _ => none
        else none
    else (dqCore rest).map (fun p => (c :: p.1, p.2))

/-- A parsed YAML value of the shapes this program's frontmatter uses. -/
inductive YVal where
  | nul
  | str (s : List Char)
  | lst (xs : List (List Char))
deriving DecidableEq, Repr

/-- Drop leading spaces. -/
def skipSp (l : List Char) : List Char := l.dropWhile (fun c => c = ' ')

/-- Items of a flow sequence after the first opening quote has been
consumed; fuel-driven because each item is scanned by dqCore (each
recursive step consumes at least the item's quotes, so any fuel of at
least the input length suffices). -/
def flowItems : Nat → List Char → Option (List (List Char) × List Char)
  | 0, _ => none
  | fuel + 1, tl =>
    match dqCore tl with
    | none => none
    | some (s, rem) =>
      match skipSp rem with
      | [] => none
      | c :: r =>
        if c = ']' then some ([s], r)
        else if c = ',' then
          match skipSp r with
          | [] => none
          | d :: tl2 =>
            if d = '"' then (flowItems fuel tl2).map (fun p => (s :: p.1, p.2))
            else none
        else none

/-- A flow sequence after the opening bracket: either immediately closed,
or a comma-separated list of double-quoted scalars. -/
def flowList (l : List Char) : Option (List (List Char) × List Char) :=
  match skipSp l with
  | [] => none
  | c :: tl =>
    if c = ']' then some ([], tl)
    else if c = '"' then flowItems (tl.length + 1) tl
    else none

/-- Cut a plain scalar at an inline comment (space followed by hash). -/
def cutComment : List Char → List Char
  | [] => []
  | c :: rest =>
    if c = ' ' ∧ rest.head? = some '#' then []
    else c :: cutComment rest

/-- Drop trailing spaces. -/
def trimEndSp (l : List Char) : List Char :=
  (l.reverse.dropWhile (fun c => c = ' ')).reverse

/-- Plain scalars yaml.v3 resolves as null or bool; decoding those into a
string field does not yield the written text, so the model rejects them. -/
def yamlKeyword (t : List Char) : Bool :=
  ["null", "Null", "NULL", "~", "true", "True", "TRUE", "false", "False",
    "FALSE", "yes", "Yes", "YES", "no", "No", "NO", "on", "On", "ON",
    "off", "Off", "OFF"].any (fun s => s.toList = t)

/-- A decimal digit, by code point. -/
def digitChar (c : Char) : Bool := 0x30 ≤ c.toNat && c.toNat ≤ 0x39

/-- Plain scalars yaml.v3 resolves as numbers (rejected likewise). -/
def numericLike (t : List Char) : Bool :=
  match t with
  | [] => false
  | c :: rest =>
    digitChar c || ((c = '-' || c = '+' || c = '.') &&
      ((rest.head?.map digitChar).getD false))

/-- A colon-space inside a plain scalar is a YAML mapping indicator and
makes the line invalid. -/
def badPlainPair : List Char → Bool
  | [] => false
  | c :: rest =>
    if c = ':' ∧ rest.head? = some ' ' then true
    else badPlainPair rest

/-- Parse a plain (unquoted) scalar value into a string, as yaml.v3 does
when decoding into a string field. -/
def plainVal (v : List Char) : Option YVal :=
  let t := trimEndSp (cutComment v)
  if t = [] then some .nul
  else if yamlKeyword t then none
  else if numericLike t then none
  else if badPlainPair t then none
  else some (.str t)

/-- Split a line at its first colon: key and the remainder after it. -/
def splitColon : List Char → Option (List Char × List Char)
  | [] => none
  | c :: rest =>
    if c = ':' then some ([], rest)
    else (splitColon rest).map (fun p => (c :: p.1, p.2))

/-- Parse the value region of a mapping line (the part after the key's
colon): empty means null, otherwise a space must follow the colon and the
value is a double-quoted scalar, a flow sequence, or a plain scalar. -/
def parseValueRegion (rest : List Char) : Option YVal :=
  if rest = [] then some .nul
  else if rest.head? ≠ some ' ' then none
  else
    match skipSp rest with
    | [] => some .nul
    | c :: tl =>
      if c = '"' then
        match dqCore tl with
        | some (s, rem) => if rem.all (fun d => d = ' ') then some (.str s) else none
        | none => none
      else if c = '[' then
        match flowList tl with
        | some (xs, rem) => if rem.all (fun d => d = ' ') then some (.lst xs) else none
        | none => none
      else plainVal (c :: tl)

/-- Coerce a YAML value into a Go string field (null decodes to the zero
value, a sequence is a type error). -/
def strField : YVal → Option String
  | .nul => some ""
  | .str s => some ⟨s⟩
  | .lst _ => none

/-- Coerce a YAML value into a Go []string field. -/
def lstField : YVal → Option (List String)
  | .nul => some []
  | .str _ => none
  | .lst xs => some (xs.map (fun l => ⟨l⟩))

/-- Assign a parsed value to the Identity field with the given yaml tag
(identity.go struct tags); unknown keys are ignored as yaml.v3 does. -/
def assignField (id : Identity) (key : List Char) (v : YVal) : Option Identity :=
  if key = "uuid".toList then (strField v).map (fun s => { id with UUID := s })
  else if key = "given_name".toList then (strField v).map (fun s => { id with GivenName := s })
  else if key = "family_name".toList then (strField v).map (fun s => { id with FamilyName := s })
  else if key = "motto".toList then (strField v).map (fun s => { id with Motto := s })
  else if key = "composer".toList then (strField v).map (fun s => { id with Composer := s })
  else if key = "clade".toList then (strField v).map (fun s => { id with Clade := s })
  else if key = "status".toList then (strField v).map (fun s => { id with Status := s })
  else if key = "born".toList then (strField v).map (fun s => { id with Born := s })
  else if key = "parents".toList then (lstField v).map (fun s => { id with Parents := s })
  else if key = "reproduction".toList then (strField v).map (fun s => { id with Reproduction := s })
  else if key = "aliases".toList then (lstField v).map (fun s => { id with Aliases := s })
  else if key = "generated_by".toList then (strField v).map (fun s => { id with GeneratedBy := s })
  else if key = "lang".toList then (strField v).map (fun s => { id with Lang := s })
  else if key = "proto_status".toList then (strField v).map (fun s => { id with ProtoStatus := s })
  else some id

/-- Process one line of the frontmatter mapping: blank and comment lines
are skipped, any other line must be a key-colon-value mapping entry. -/
def yamlLine (id : Identity) (l : List Char) : Option Identity :=
  if l = [] then some id
  else if l.head? = some '#' then some id
  else
    match splitColon l with
    | none => none
    | some (key, rest) =>
      match parseValueRegion rest with
      | none => none
      | some v => assignField id key v

/-- Fold yamlLine over the block's lines, aborting on the first error. -/
def yamlLinesFold (id : Identity) : List (List Char) → Option Identity
  | [] => some id
  | l :: rest =>
    match yamlLine id l with
    | none => none
    | some id2 => yamlLinesFold id2 rest

/-- Split on newlines (the list of lines, final newline not required). -/
def splitLinesChars : List Char → List (List Char)
  | [] => [[]]
  | c :: rest =>
    if c = '\n' then [] :: splitLinesChars rest
    else
      match splitLinesChars rest with
      | [] => [[c]]
      | l :: ls => (c :: l) :: ls

/-- Model of yaml.Unmarshal into a zero Identity for the line-oriented
mappings this program reads and writes (see the file header). -/
def yamlUnmarshal (cs : List Char) : Option Identity :=
  yamlLinesFold {} (splitLinesChars cs)

/-- Index of the first occurrence of newline-dash-dash-dash
(strings.Index rest of writer.go ParseFrontmatter). -/
def idxNlDashes : List Char → Option Nat
  | [] => none
  | c :: rest =>
    if c = '\n' ∧ rest.take 3 = ['-', '-', '-'] then some 0
    else (idxNlDashes rest).map (fun n => n + 1)

/-- Character-level body of ParseFrontmatter (writer.go): returns the Go
triple (identity, body, error), with the zero Identity and empty body on
every failure, exactly as the source's early returns do. -/
def parseFMChars (cs : List Char) : Identity × List Char × Option String :=
  if cs.take 3 = "---".toList then
    let rest := cs.drop 3
    let rest := if rest.head? = some '\n' then rest.drop 1 else rest
    match idxNlDashes rest with
    | none => ({}, [], some "unclosed YAML frontmatter")
    | some e =>
      let yamlBlock := rest.take e
      let body := rest.drop (e + 4)
      match yamlUnmarshal yamlBlock with
      | none => ({}, [], some "YAML parse error")
      | some id => (id, body, none)
  else ({}, [], some "no YAML frontmatter found")

/-- writer.go ParseFrontmatter. -/
def ParseFrontmatter (data : String) : Identity × String × Option String :=
  match parseFMChars data.toList with
  | (id, body, err) => (id, ⟨body⟩, err)

/-- Go strings.HasPrefix: byte-prefix, equivalently character-prefix. -/
def goStartsWith (s pre : String) : Bool := pre.toList.isPrefixOf s.toList

mutual
/-- A filesystem node: a regular file (with readability and content) or a
directory (with readability and its entries in traversal order, i.e. the
lexical order filepath.WalkDir visits).  An unreadable file makes
os.ReadFile fail; an unreadable directory makes os.ReadDir fail. -/
inductive FSTree where
  | file (readable : Bool) (content : String)
  | dir (readable : Bool) (entries : FSEntries)

inductive FSEntries where
  | nil
  | cons (name : String) (tree : FSTree) (rest : FSEntries)
end

/-- Append of directory-entry sequences. -/
def FSEntries.append : FSEntries → FSEntries → FSEntries
  | .nil, ys => ys
  | .cons n t rest, ys => .cons n t (rest.append ys)

/-- The traversal-control values the walk callbacks in this repository
return: nil, filepath.SkipDir, filepath.SkipAll, or a genuine error
(never produced by these callbacks, but propagated by the walk exactly as
filepath.WalkDir would). -/
inductive Ctl where
  | next
  | skipDir
  | skipAll
  | fail (msg : String)
deriving DecidableEq, Repr

/-- The type of a fs.WalkDirFunc over walk state σ: state, path, entry
name, the entry itself (none when the walk reports a lookup error for a
nonexistent root), and the incoming-error flag. -/
abbrev WalkFn (σ : Type) := σ → String → String → Option FSTree → Bool → σ × Ctl

mutual
/-- filepath.WalkDir's recursive walkDir helper: visit the entry, handle
SkipDir/SkipAll, read directory children (reporting a read error to the
callback), and fold over the children, stopping the sibling loop when a
child propagates SkipDir and aborting entirely on SkipAll. -/
def walkNode {σ : Type} (fn : WalkFn σ) (st : σ) (path name : String) : FSTree → σ × Ctl
  | .file r c =>
    match fn st path name (some (.file r c)) false with
    | (st2, ctl) => (st2, ctl)
  | .dir r ents =>
    match fn st path name (some (.dir r ents)) false with
    | (st2, .skipDir) => (st2, .next)
    | (st2, .skipAll) => (st2, .skipAll)
    | (st2, .fail e) => (st2, .fail e)
    | (st2, .next) =>
      if r then walkEntries fn st2 path ents
      else
        match fn st2 path name (some (.dir r ents)) true with
        | (st3, .skipDir) => (st3, .next)
        | (st3, .skipAll) => (st3, .skipAll)
        | (st3, .fail e) => (st3, .fail e)
        | (st3, .next) => (st3, .next)

def walkEntries {σ : Type} (fn : WalkFn σ) (st : σ) (path : String) : FSEntries → σ × Ctl
  | .nil => (st, .next)
  | .cons n t rest =>
    match walkNode fn st (path ++ "/" ++ n) n t with
    | (st2, .skipAll) => (st2, .skipAll)
    | (st2, .fail e) => (st2, .fail e)
    | (st2, .skipDir) => (st2, .next)
    | (st2, .next) => walkEntries fn st2 path rest
end

/-- filepath.WalkDir: a missing root reports the lookup error to the
callback once; SkipDir and SkipAll at top level become a nil error.
rootName stands for filepath.Base of the root path. -/
def walkTop {σ : Type} (fn : WalkFn σ) (st : σ) (rootPath rootName : String) :
    Option FSTree → σ × Option String
  | none =>
    match fn st rootPath rootName none true with
    | (st2, .fail e) => (st2, some e)
    | (st2, _) => (st2, none)
  | some t =>
    match walkNode fn st rootPath rootName t with
    | (st2, .fail e) => (st2, some e)
    | (st2, _) => (st2, none)

/-- The mutable scan state of ScanAllWithPaths: the two counters and, in
place of the onFound / onProgress callbacks, the sequences of values they
were called with. -/
structure ScanState where
  scanned : Nat
  found : Nat
  emissions : List LocatedIdentity
  progress : List ScanProgress
deriving DecidableEq, Repr

/-- The initial scan state. -/
def ScanState.init : ScanState := ⟨0, 0, [], []⟩

/-- writer.go reportProgress: when an onProgress callback is present,
report if forced or the scanned counter is a positive multiple of the
interval. -/
def reportProgress (hasProgress : Bool) (every : Nat) (force : Bool) (st : ScanState) : ScanState :=
  if hasProgress = false then st
  else if force || (decide (0 < every) && decide (0 < st.scanned) && decide (st.scanned % every = 0)) then
    { st with progress := st.progress ++ [⟨st.scanned, st.found⟩] }
  else st

/-- The walk callback of ScanAllWithPaths (writer.go): swallow walk
errors, skip hidden directories other than the current-directory and
.holon names, count every other file, then decode name-matching readable
files and emit them. -/
def scanFn (hasProgress : Bool) (every : Nat) : WalkFn ScanState := fun st path name node errFlag =>
  if errFlag then (st, .next)
  else
    match node with
    | none => (st, .next)
    | some (.dir _ _) =>
      if name ≠ "." && name ≠ ".holon" && goStartsWith name "." then (st, .skipDir)
      else (st, .next)
    | some (.file readable content) =>
      let st := { st with scanned := st.scanned + 1 }
      let st := reportProgress hasProgress every false st
      if name ≠ "HOLON.md" then (st, .next)
      else if !readable then (st, .next)
      else
        match ParseFrontmatter content with
        | (_, _, some _) => (st, .next)
        | (id, _, none) =>
          ({ st with
             found := st.found + 1,
             emissions := st.emissions ++ [⟨id, path⟩] }, .next)

/-- writer.go ScanAllWithPaths: clamp a negative interval to zero, walk,
propagate a walk error (the callback never produces one), and report
progress once more, forced, after the walk. -/
def ScanAllWithPaths (rootPath rootName : String) (root : Option FSTree)
    (progressEvery : Int) (hasProgress : Bool) : ScanState × Option String :=
  let every : Nat := if progressEvery < 0 then 0 else progressEvery.toNat
  match walkTop (scanFn hasProgress every) ScanState.init rootPath rootName root with
  | (st, some e) => (st, some e)
  | (st, none) => (reportProgress hasProgress every true st, none)

/-- writer.go FindAllWithPaths: collect the scanner's emissions with no
progress callback. -/
def FindAllWithPaths (rootPath rootName : String) (root : Option FSTree) :
    List LocatedIdentity × Option String :=
  match ScanAllWithPaths rootPath rootName root 0 false with
  | (st, err) => (st.emissions, err)

/-- writer.go FindAll: drop the paths (nil result on error). -/
def FindAll (rootPath rootName : String) (root : Option FSTree) :
    List Identity × Option String :=
  match FindAllWithPaths rootPath rootName root with
  | (_, some e) => ([], some e)
  | (located, none) => (located.map (fun h => h.Identity), none)

/-- The walk callback of FindByUUID (writer.go): skip errors, directories,
non-HOLON.md names and unreadable or unparseable files; on the first
record whose UUID equals or has the target as a prefix, record the path
and stop the walk with SkipAll.  The state is the found variable,
initially the empty string. -/
def findFn (target : String) : WalkFn String := fun st path name node errFlag =>
  if errFlag then (st, .next)
  else
    match node with
    | none => (st, .next)
    | some (.dir _ _) => (st, .next)
    | some (.file readable content) =>
      if name ≠ "HOLON.md" then (st, .next)
      else if !readable then (st, .next)
      else
        match ParseFrontmatter content with
        | (_, _, some _) => (st, .next)
        | (id, _, none) =>
          if id.UUID = target || goStartsWith id.UUID target then (path, .skipAll)
          else (st, .next)

/-- writer.go FindByUUID: walk with the find callback; an empty found
path after a clean walk is the not-found error. -/
def FindByUUID (rootPath rootName : String) (root : Option FSTree) (target : String) :
    Except String String :=
  match walkTop (findFn target) "" rootPath rootName root with
  | (_, some e) => .error e
  | (found, none) =>
    if found = "" then .error ("holon not found: " ++ target)
    else .ok found

mutual
/-- Reference traversal of the scanner, used to state its properties: the
per-file outcomes (some emitted record, or none for a file that was only
counted) in the order ScanAllWithPaths visits them, honouring its
hidden-directory skip rule and its treatment of unreadable directories. -/
def scanItems (path name : String) : FSTree → List (Option LocatedIdentity)
  | .file readable content =>
    [ if name = "HOLON.md" ∧ readable = true ∧ (ParseFrontmatter content).2.2 = none then
        some ⟨(ParseFrontmatter content).1, path⟩
      else none ]
  | .dir readable ents =>
    if name ≠ "." && name ≠ ".holon" && goStartsWith name "." then []
    else if !readable then []
    else scanItemsEntries path ents

def scanItemsEntries (path : String) : FSEntries → List (Option LocatedIdentity)
  | .nil => []
  | .cons n t rest => scanItems (path ++ "/" ++ n) n t ++ scanItemsEntries path rest
end

mutual
/-- Reference traversal of the resolver: every readable, parseable
HOLON.md under the node in traversal order, with no hidden-directory
skipping but with unreadable directories cut off, exactly as FindByUUID's
walk behaves. -/
def holonsUnder (path name : String) : FSTree → List (String × Identity)
  | .file readable content =>
    if name = "HOLON.md" ∧ readable = true ∧ (ParseFrontmatter content).2.2 = none then
      [(path, (ParseFrontmatter content).1)]
    else []
  | .dir readable ents => if readable then holonsUnderEntries path ents else []

def holonsUnderEntries (path : String) : FSEntries → List (String × Identity)
  | .nil => []
  | .cons n t rest => holonsUnder (path ++ "/" ++ n) n t ++ holonsUnderEntries path rest
end

/-- The match predicate of FindByUUID. -/
def uuidMatches (target : String) (pr : String × Identity) : Bool :=
  pr.2.UUID = target || goStartsWith pr.2.UUID target

/-- scanItems lifted to the optional root, mirroring walkTop. -/
def scanItemsTop (rootPath rootName : String) : Option FSTree → List (Option LocatedIdentity)
  | none => []
  | some t => scanItems rootPath rootName t

/-- holonsUnder lifted to the optional root. -/
def holonsTop (rootPath rootName : String) : Option FSTree → List (String × Identity)
  | none => []
  | some t => holonsUnder rootPath rootName t

/-- Apply one reference item to the scan state, exactly as the scanner's
file branch does: count, maybe report, maybe emit. -/
def applyItem (hasProgress : Bool) (every : Nat) (st : ScanState) :
    Option LocatedIdentity → ScanState
  | none => reportProgress hasProgress every false { st with scanned := st.scanned + 1 }
  | some h =>
    let st2 := reportProgress hasProgress every false { st with scanned := st.scanned + 1 }
    { st2 with found := st2.found + 1, emissions := st2.emissions ++ [h] }

/-- Fold applyItem over an item sequence. -/
def applyItems (hasProgress : Bool) (every : Nat) (st : ScanState) :
    List (Option LocatedIdentity) → ScanState
  | [] => st
  | it :: rest => applyItems hasProgress every (applyItem hasProgress every st it) rest

/-- The progress snapshots a scan over the given items emits before the
final forced report, starting from counters s and f: after the k-th file
the snapshot (s + k, found-so-far) appears exactly when every is positive
and divides s + k.  A snapshot is taken before the current file's record
is counted, as in the source (scanned++ and reportProgress precede the
found++). -/
def progSeq (every : Nat) (s f : Nat) : List (Option LocatedIdentity) → List ScanProgress
  | [] => []
  | it :: rest =>
    (if 0 < every ∧ (s + 1) % every = 0 then [⟨s + 1, f⟩] else []) ++
      progSeq every (s + 1) (f + (if it.isSome then 1 else 0)) rest

/-- Number of emitted records among the items. -/
def itemsFound (items : List (Option LocatedIdentity)) : Nat :=
  (items.filterMap id).length

/-- The records among the items, in order. -/
def itemsEmissions (items : List (Option LocatedIdentity)) : List LocatedIdentity :=
  items.filterMap id

/-- internal/cli/commands.go: one printed row of RunList (the record, its
origin label and the path column; the path is the found file's path, the
relHolonDir presentation step being display-only). -/
structure ListEntry where
  id : Identity
  origin : String
  path : String
deriving DecidableEq, Repr

/-- commands.go RunList de-duplication key: the record's UUID, or its
path when the UUID is empty. -/
def dedupKey (h : LocatedIdentity) : String :=
  if h.Identity.UUID = "" then h.Path else h.Identity.UUID

/-- commands.go scanAndPrint: run one scan (interval 500, progress shown)
and append each emission as a row, consulting and updating the shared
de-duplication set when one is supplied. -/
def scanAndPrint (scanRootPath scanRootName : String) (tree : Option FSTree)
    (origin : String) (useDedupe : Bool) (seen : List String) (acc : List ListEntry) :
    List String × List ListEntry :=
  ((ScanAllWithPaths scanRootPath scanRootName tree 500 true).1.emissions).foldl
    (fun p h =>
      let key := dedupKey h
      if useDedupe then
        if key ∈ p.1 then p
        else (key :: p.1, p.2 ++ [⟨h.Identity, origin, h.Path⟩])
      else (p.1, p.2 ++ [⟨h.Identity, origin, h.Path⟩]))
    (seen, acc)

/-- First entry with the given name. -/
def FSEntries.lookup : FSEntries → String → Option FSTree
  | .nil, _ => none
  | .cons n t rest, name => if n = name then some t else rest.lookup name

/-- Look up a named entry of a directory node (the filesystem's view of
the path join root/holons); fails when the node is missing, a file, or an
unreadable directory. -/
def subTree (t : Option FSTree) (name : String) : Option FSTree :=
  match t with
  | some (.dir true ents) => FSEntries.lookup ents name
  | _ => none

/-- commands.go RunList: scan root/holons and the root with one shared
de-duplication set labelled local, then the cache with no de-duplication
labelled cached, collecting the printed rows in order.  cacheRoot models
the tree at the global cache directory (none when the home directory is
unknown or the cache is absent). -/
def RunList (rootPath rootName : String) (rootTree : Option FSTree)
    (cachePath cacheName : String) (cacheTree : Option FSTree) : List ListEntry :=
  let p1 := scanAndPrint (rootPath ++ "/holons") "holons" (subTree rootTree "holons")
    "local" true [] []
  let p2 := scanAndPrint rootPath rootName rootTree "local" true p1.1 p1.2
  let p3 := scanAndPrint cachePath cacheName cacheTree "cached" false [] p2.2
  p3.2

/-- Reference de-duplication: keep each emission whose key has not been
seen, first occurrence wins. -/
def dedupEmissions (seen : List String) : List LocatedIdentity → List LocatedIdentity
  | [] => []
  | h :: rest =>
    if dedupKey h ∈ seen then dedupEmissions seen rest
    else h :: dedupEmissions (dedupKey h :: seen) rest

/-- Go unicode.IsSpace: the Unicode White_Space property (ASCII
whitespace, NEL, NBSP, and the further White_Space code points U+1680,
U+2000-U+200A, U+2028, U+2029, U+202F, U+205F, U+3000). -/
def goIsSpace (c : Char) : Bool :=
  (0x9 ≤ c.toNat && c.toNat ≤ 0xd) || c.toNat = 0x20 || c.toNat = 0x85 ||
    c.toNat = 0xa0 || c.toNat = 0x1680 ||
    (0x2000 ≤ c.toNat && c.toNat ≤ 0x200a) || c.toNat = 0x2028 ||
    c.toNat = 0x2029 || c.toNat = 0x202f || c.toNat = 0x205f ||
    c.toNat = 0x3000

/-- Go strings.TrimSpace. -/
def goTrimSpace (s : String) : String :=
  ⟨((s.toList.dropWhile goIsSpace).reverse.dropWhile goIsSpace).reverse⟩

/-- The pb.Clade enum of the gRPC contract. -/
inductive PbClade where
  | unspecified
  | deterministicPure
  | deterministicStateful
  | deterministicIoBound
  | probabilisticGenerative
  | probabilisticPerceptual
  | probabilisticAdaptive
deriving DecidableEq, Repr

/-- The pb.ReproductionMode enum of the gRPC contract. -/
inductive PbReproduction where
  | unspecified
  | manual
  | assisted
  | automatic
  | autopoietic
  | bred
deriving DecidableEq, Repr

/-- server.go cladeToString (defaulting to deterministic/pure). -/
def cladeToString : PbClade → String
  | .deterministicPure => "deterministic/pure"
  | .deterministicStateful => "deterministic/stateful"
  | .deterministicIoBound => "deterministic/io_bound"
  | .probabilisticGenerative => "probabilistic/generative"
  | .probabilisticPerceptual => "probabilistic/perceptual"
  | .probabilisticAdaptive => "probabilistic/adaptive"
  | .unspecified => "deterministic/pure"

/-- server.go reproductionToString (defaulting to manual). -/
def reproductionToString : PbReproduction → String
  | .manual => "manual"
  | .assisted => "assisted"
  | .automatic => "automatic"
  | .autopoietic => "autopoietic"
  | .bred => "bred"
  | .unspecified => "manual"

/-- identity.go New, with the two effectful inputs (the generated UUID
and today's date) passed explicitly. -/
def identityNew (genUUID today : String) : Identity :=
  { UUID := genUUID, Status := "draft", Born := today, Parents := [],
    GeneratedBy := "sophia-who", ProtoStatus := "draft" }

/-- server.go CreateIdentityRequest (the fields CreateIdentity reads). -/
structure CreateReq where
  givenName : String
  familyName : String
  motto : String
  composer : String
  clade : PbClade
  reproduction : PbReproduction
  lang : String
  aliases : List String
  outputDir : String
deriving DecidableEq, Repr

/-- The Unicode simple lowercase mapping (UnicodeData.txt) used by Go's
unicode.ToLower, compressed into runs (first, last, stride, delta): a code
point n is lowered to n + delta when first <= n <= last and n - first is a
multiple of stride.  U+0130 maps to 0x69 as in Go's simple mapping. -/
def goLowerRuns : List (Nat × Nat × Nat × Int) := [
    (0x41, 0x5a, 1, 32), (0xc0, 0xd6, 1, 32), (0xd8, 0xde, 1, 32),
    (0x100, 0x12e, 2, 1), (0x130, 0x130, 1, -199), (0x132, 0x136, 2, 1),
    (0x139, 0x147, 2, 1), (0x14a, 0x176, 2, 1), (0x178, 0x178, 1, -121),
    (0x179, 0x17d, 2, 1), (0x181, 0x181, 1, 210), (0x182, 0x184, 2, 1),
    (0x186, 0x186, 1, 206), (0x187, 0x187, 1, 1), (0x189, 0x18a, 1, 205),
    (0x18b, 0x18b, 1, 1), (0x18e, 0x18e, 1, 79), (0x18f, 0x18f, 1, 202),
    (0x190, 0x190, 1, 203), (0x191, 0x191, 1, 1), (0x193, 0x193, 1, 205),
    (0x194, 0x194, 1, 207), (0x196, 0x196, 1, 211), (0x197, 0x197, 1, 209),
    (0x198, 0x198, 1, 1), (0x19c, 0x19c, 1, 211), (0x19d, 0x19d, 1, 213),
    (0x19f, 0x19f, 1, 214), (0x1a0, 0x1a4, 2, 1), (0x1a6, 0x1a6, 1, 218),
    (0x1a7, 0x1a7, 1, 1), (0x1a9, 0x1a9, 1, 218), (0x1ac, 0x1ac, 1, 1),
    (0x1ae, 0x1ae, 1, 218), (0x1af, 0x1af, 1, 1), (0x1b1, 0x1b2, 1, 217),
    (0x1b3, 0x1b5, 2, 1), (0x1b7, 0x1b7, 1, 219), (0x1b8, 0x1b8, 1, 1),
    (0x1bc, 0x1bc, 1, 1), (0x1c4, 0x1c4, 1, 2), (0x1c5, 0x1c5, 1, 1),
    (0x1c7, 0x1c7, 1, 2), (0x1c8, 0x1c8, 1, 1), (0x1ca, 0x1ca, 1, 2),
    (0x1cb, 0x1db, 2, 1), (0x1de, 0x1ee, 2, 1), (0x1f1, 0x1f1, 1, 2),
    (0x1f2, 0x1f4, 2, 1), (0x1f6, 0x1f6, 1, -97), (0x1f7, 0x1f7, 1, -56),
    (0x1f8, 0x21e, 2, 1), (0x220, 0x220, 1, -130), (0x222, 0x232, 2, 1),
    (0x23a, 0x23a, 1, 10795), (0x23b, 0x23b, 1, 1), (0x23d, 0x23d, 1, -163),
    (0x23e, 0x23e, 1, 10792), (0x241, 0x241, 1, 1), (0x243, 0x243, 1, -195),
    (0x244, 0x244, 1, 69), (0x245, 0x245, 1, 71), (0x246, 0x24e, 2, 1),
    (0x370, 0x372, 2, 1), (0x376, 0x376, 1, 1), (0x37f, 0x37f, 1, 116),
    (0x386, 0x386, 1, 38), (0x388, 0x38a, 1, 37), (0x38c, 0x38c, 1, 64),
    (0x38e, 0x38f, 1, 63), (0x391, 0x3a1, 1, 32), (0x3a3, 0x3ab, 1, 32),
    (0x3cf, 0x3cf, 1, 8), (0x3d8, 0x3ee, 2, 1), (0x3f4, 0x3f4, 1, -60),
    (0x3f7, 0x3f7, 1, 1), (0x3f9, 0x3f9, 1, -7), (0x3fa, 0x3fa, 1, 1),
    (0x3fd, 0x3ff, 1, -130), (0x400, 0x40f, 1, 80), (0x410, 0x42f, 1, 32),
    (0x460, 0x480, 2, 1), (0x48a, 0x4be, 2, 1), (0x4c0, 0x4c0, 1, 15),
    (0x4c1, 0x4cd, 2, 1), (0x4d0, 0x52e, 2, 1), (0x531, 0x556, 1, 48),
    (0x10a0, 0x10c5, 1, 7264), (0x10c7, 0x10c7, 1, 7264), (0x10cd, 0x10cd, 1, 7264),
    (0x13a0, 0x13ef, 1, 38864), (0x13f0, 0x13f5, 1, 8), (0x1c90, 0x1cba, 1, -3008),
    (0x1cbd, 0x1cbf, 1, -3008), (0x1e00, 0x1e94, 2, 1), (0x1e9e, 0x1e9e, 1, -7615),
    (0x1ea0, 0x1efe, 2, 1), (0x1f08, 0x1f0f, 1, -8), (0x1f18, 0x1f1d, 1, -8),
    (0x1f28, 0x1f2f, 1, -8), (0x1f38, 0x1f3f, 1, -8), (0x1f48, 0x1f4d, 1, -8),
    (0x1f59, 0x1f5f, 2, -8), (0x1f68, 0x1f6f, 1, -8), (0x1f88, 0x1f8f, 1, -8),
    (0x1f98, 0x1f9f, 1, -8), (0x1fa8, 0x1faf, 1, -8), (0x1fb8, 0x1fb9, 1, -8),
    (0x1fba, 0x1fbb, 1, -74), (0x1fbc, 0x1fbc, 1, -9), (0x1fc8, 0x1fcb, 1, -86),
    (0x1fcc, 0x1fcc, 1, -9), (0x1fd8, 0x1fd9, 1, -8), (0x1fda, 0x1fdb, 1, -100),
    (0x1fe8, 0x1fe9, 1, -8), (0x1fea, 0x1feb, 1, -112), (0x1fec, 0x1fec, 1, -7),
    (0x1ff8, 0x1ff9, 1, -128), (0x1ffa, 0x1ffb, 1, -126), (0x1ffc, 0x1ffc, 1, -9),
    (0x2126, 0x2126, 1, -7517), (0x212a, 0x212a, 1, -8383), (0x212b, 0x212b, 1, -8262),
    (0x2132, 0x2132, 1, 28), (0x2160, 0x216f, 1, 16), (0x2183, 0x2183, 1, 1),
    (0x24b6, 0x24cf, 1, 26), (0x2c00, 0x2c2f, 1, 48), (0x2c60, 0x2c60, 1, 1),
    (0x2c62, 0x2c62, 1, -10743), (0x2c63, 0x2c63, 1, -3814), (0x2c64, 0x2c64, 1, -10727),
    (0x2c67, 0x2c6b, 2, 1), (0x2c6d, 0x2c6d, 1, -10780), (0x2c6e, 0x2c6e, 1, -10749),
    (0x2c6f, 0x2c6f, 1, -10783), (0x2c70, 0x2c70, 1, -10782), (0x2c72, 0x2c72, 1, 1),
    (0x2c75, 0x2c75, 1, 1), (0x2c7e, 0x2c7f, 1, -10815), (0x2c80, 0x2ce2, 2, 1),
    (0x2ceb, 0x2ced, 2, 1), (0x2cf2, 0x2cf2, 1, 1), (0xa640, 0xa66c, 2, 1),
    (0xa680, 0xa69a, 2, 1), (0xa722, 0xa72e, 2, 1), (0xa732, 0xa76e, 2, 1),
    (0xa779, 0xa77b, 2, 1), (0xa77d, 0xa77d, 1, -35332), (0xa77e, 0xa786, 2, 1),
    (0xa78b, 0xa78b, 1, 1), (0xa78d, 0xa78d, 1, -42280), (0xa790, 0xa792, 2, 1),
    (0xa796, 0xa7a8, 2, 1), (0xa7aa, 0xa7aa, 1, -42308), (0xa7ab, 0xa7ab, 1, -42319),
    (0xa7ac, 0xa7ac, 1, -42315), (0xa7ad, 0xa7ad, 1, -42305), (0xa7ae, 0xa7ae, 1, -42308),
    (0xa7b0, 0xa7b0, 1, -42258), (0xa7b1, 0xa7b1, 1, -42282), (0xa7b2, 0xa7b2, 1, -42261),
    (0xa7b3, 0xa7b3, 1, 928), (0xa7b4, 0xa7c2, 2, 1), (0xa7c4, 0xa7c4, 1, -48),
    (0xa7c5, 0xa7c5, 1, -42307), (0xa7c6, 0xa7c6, 1, -35384), (0xa7c7, 0xa7c9, 2, 1),
    (0xa7d0, 0xa7d0, 1, 1), (0xa7d6, 0xa7d8, 2, 1), (0xa7f5, 0xa7f5, 1, 1),
    (0xff21, 0xff3a, 1, 32), (0x10400, 0x10427, 1, 40), (0x104b0, 0x104d3, 1, 40),
    (0x10570, 0x1057a, 1, 39), (0x1057c, 0x1058a, 1, 39), (0x1058c, 0x10592, 1, 39),
    (0x10594, 0x10595, 1, 39), (0x10c80, 0x10cb2, 1, 64), (0x118a0, 0x118bf, 1, 32),
    (0x16e40, 0x16e5f, 1, 32), (0x1e900, 0x1e921, 1, 34)]

/-- Go unicode.ToLower (the rune-wise mapping strings.ToLower applies). -/
def goToLowerChar (c : Char) : Char :=
  let n := c.toNat
  match goLowerRuns.find? (fun e =>
    decide (e.1 ≤ n) && decide (n ≤ e.2.1) && decide ((n - e.1) % e.2.2.1 = 0)) with
  | some e => Char.ofNat (Int.toNat (Int.ofNat n + e.2.2.2))
  | none => c

/-- commands.go / server.go default output directory name: lower-cased
given-dash-family with a trailing question mark stripped and spaces
replaced by dashes. -/
def defaultDirName (givenName familyName : String) : String :=
  ⟨((givenName ++ "-" ++ (if familyName.toList.getLast? = some '?' then
      ⟨familyName.toList.dropLast⟩ else familyName)).toList.map goToLowerChar).map
      (fun c => if c = ' ' then '-' else c)⟩

/-- server.go CreateIdentity: validate the four required fields (nil
request first), build the record from identity.New plus the request, pick
the output directory, and write HOLON.md there.  Directory creation and
the file write are modelled as succeeding; on success the result carries
the record, the written path, and the written content; a validation error
returns before anything is written, as in the source. -/
def CreateIdentity (genUUID today : String) (req : Option CreateReq) :
    Except String (Identity × String × String) :=
  match req with
  | none => .error "request is required"
  | some r =>
    if goTrimSpace r.givenName = "" then .error "given_name is required"
    else if goTrimSpace r.familyName = "" then .error "family_name is required"
    else if goTrimSpace r.motto = "" then .error "motto is required"
    else if goTrimSpace r.composer = "" then .error "composer is required"
    else
      let id := identityNew genUUID today
      let id := { id with
                  GivenName := r.givenName, FamilyName := r.familyName,
                  Motto := r.motto, Composer := r.composer,
                  Clade := cladeToString r.clade,
                  Reproduction := reproductionToString r.reproduction }
      let id := if r.lang ≠ "" then { id with Lang := r.lang } else id
      let id := if 0 < r.aliases.length then { id with Aliases := r.aliases } else id
      let outputDir := if r.outputDir = "" then
          ".holon/" ++ defaultDirName id.GivenName id.FamilyName
        else r.outputDir
      let outputPath := outputDir ++ "/HOLON.md"
      .ok (id, outputPath, renderHolonMD id)

/-- The files CreateIdentity writes: one on success, none on failure. -/
def createWrites (res : Except String (Identity × String × String)) :
    List (String × String) :=
  match res with
  | .ok (_, p, c) => [(p, c)]
  | .error _ => []

/-- A plain-safe scalar: nonempty, begins with a letter, contains only
letters, digits, dashes, underscores, dots and slashes, and is not a
YAML null/bool keyword.  Such a string survives being rendered unquoted on the status
and proto_status template lines and read back as a YAML plain scalar
(all four Status enum values and both ProtoStatus values used by the
program are plain-safe).  A letter, by code point: -/
def plainAlpha (c : Char) : Bool :=
  (0x41 ≤ c.toNat && c.toNat ≤ 0x5a) || (0x61 ≤ c.toNat && c.toNat ≤ 0x7a)

/-- Characters allowed in a plain-safe scalar. -/
def plainSafeChar (c : Char) : Bool :=
  plainAlpha c || digitChar c || c = '-' || c = '_' || c = '.' || c = '/'

def plainSafe (s : String) : Bool :=
  match s.toList with
  | [] => false
  | c :: rest =>
    plainAlpha c && (c :: rest).all plainSafeChar && !yamlKeyword (c :: rest)

/-- The valid HOLON.md fixture of pkg/identity/identity_test.go
(validFrontmatter). -/
def exContent : String :=
  "---\nuuid: \"test-uuid-1234\"\ngiven_name: \"TestHolon\"\nfamily_name: \"Prober\"\nmotto: \"Test all the things.\"\ncomposer: \"B. ALTER\"\nclade: \"deterministic/pure\"\nstatus: draft\nborn: \"2026-01-01\"\nparents: []\nreproduction: \"manual\"\ngenerated_by: \"test\"\nlang: \"go\"\nproto_status: draft\n---\n\n# TestHolon Prober\n\n> *\"Test all the things.\"*\n"

/-- A root whose only record sits under a hidden directory named
.secret, as in the hidden-directory scenario of identity_test.go. -/
def secretTree : FSTree :=
  .dir true (.cons ".secret" (.dir true (.cons "HOLON.md" (.file true exContent) .nil)) .nil)

/-- A root with one valid record in a visible subdirectory. -/
def exTree : FSTree :=
  .dir true (.cons "holon-a" (.dir true (.cons "HOLON.md" (.file true exContent) .nil)) .nil)

/-- The de-duplication set after processing emissions, matching the
updates RunList's shared map receives. -/
def dedupSeen (seen : List String) : List LocatedIdentity → List String
  | [] => seen
  | h :: rest =>
    if dedupKey h ∈ seen then dedupSeen seen rest
    else dedupSeen (dedupKey h :: seen) rest

/-- The input flowItems sees for a nonempty rendered flow sequence: the
first item with its opening quote already consumed, then separators and
further quoted items, then the closing bracket. -/
def flowTail : List String → List Char
  | [] => [']']
  | [p] => goQuoteInner p.toList ++ ('"' :: ']' :: [])
  | p :: q :: qs => goQuoteInner p.toList ++ ('"' :: ',' :: ' ' :: '"' :: flowTail (q :: qs))

/-- A concrete identity used to instantiate the round-trip theorem. -/
def rtSample : Identity :=
  { UUID := "123e4567-e89b-12d3-a456-426614174000"
    GivenName := "Sophia"
    FamilyName := "Echo"
    Motto := "Who am I?"
    Composer := "tester"
    Clade := "curious"
    Status := "active"
    Born := "2024-01-01T00:00:00Z"
    Parents := []
    Reproduction := "budding"
    Aliases := []
    GeneratedBy := "holon-gen"
    Lang := "en"
    ProtoStatus := "draft" }

/-! ## Theorems -/

theorem applyItems_append (hp : Bool) (every : Nat) (st : ScanState)
    (a b : List (Option LocatedIdentity)) :
    applyItems hp every st (a ++ b) = applyItems hp every (applyItems hp every st a) b := by
  induction a generalizing st with
  | nil => rfl
  | cons x xs ih => simp [applyItems, ih]

mutual
theorem scanWalk_node (hp : Bool) (every : Nat) (st : ScanState) (path name : String) :
    (t : FSTree) →
      walkNode (scanFn hp every) st path name t =
        (applyItems hp every st (scanItems path name t), Ctl.next)
  | .file r c => by
    rcases hpc : ParseFrontmatter c with ⟨id, body, err⟩
    by_cases hn : name = "HOLON.md" <;> cases r <;> cases err <;>
      simp [walkNode, scanFn, scanItems, applyItems, applyItem, hn, hpc]
  | .dir r ents => by
    by_cases hh : (¬name = "." ∧ ¬name = ".holon") ∧ goStartsWith name "." = true
    · cases r <;> simp [walkNode, scanFn, scanItems, hh, hh.1.1, hh.1.2, hh.2, applyItems]
    · cases r with
      | false => simp [walkNode, scanFn, scanItems, hh, applyItems]
      | true => simp [walkNode, scanFn, scanItems, hh, scanWalk_entries hp every st path ents]

theorem scanWalk_entries (hp : Bool) (every : Nat) (st : ScanState) (path : String) :
    (ents : FSEntries) →
      walkEntries (scanFn hp every) st path ents =
        (applyItems hp every st (scanItemsEntries path ents), Ctl.next)
  | .nil => by simp [walkEntries, scanItemsEntries, applyItems]
  | .cons n t rest => by
    simp [walkEntries, scanItemsEntries, applyItems_append,
      scanWalk_node hp every st (path ++ "/" ++ n) n t,
      scanWalk_entries hp every (applyItems hp every st (scanItems (path ++ "/" ++ n) n t)) path rest]
end

theorem itemsFound_cons (it : Option LocatedIdentity) (rest : List (Option LocatedIdentity)) :
    itemsFound (it :: rest) = (if it.isSome then 1 else 0) + itemsFound rest := by
  cases it <;> simp [itemsFound, Nat.add_comm]

theorem applyItems_spec (hp : Bool) (e : Nat) (st : ScanState)
    (items : List (Option LocatedIdentity)) :
    applyItems hp e st items =
      { scanned := st.scanned + items.length,
        found := st.found + itemsFound items,
        emissions := st.emissions ++ itemsEmissions items,
        progress := st.progress ++ (if hp then progSeq e st.scanned st.found items else []) } := by
  induction items generalizing st with
  | nil =>
    cases st with
    | mk s f em pr => simp [applyItems, itemsFound, itemsEmissions, progSeq]
  | cons it rest ih =>
    rw [applyItems, ih]
    rcases it with _ | h <;>
      cases hp <;>
        simp [applyItem, reportProgress, progSeq, itemsFound_cons, itemsEmissions,
          itemsFound, Nat.add_assoc, Nat.add_comm 1, List.filterMap_cons] <;>
      split_ifs <;>
        simp [Nat.succ_eq_add_one, Nat.add_assoc, Nat.add_comm 1, List.append_assoc]

theorem ScanAllWithPaths_run (rootPath rootName : String) (root : Option FSTree)
    (pe : Int) (hp : Bool) :
    ScanAllWithPaths rootPath rootName root pe hp =
      (reportProgress hp (if pe < 0 then 0 else pe.toNat) true
        (applyItems hp (if pe < 0 then 0 else pe.toNat) ScanState.init
          (scanItemsTop rootPath rootName root)), none) := by
  cases root with
  | none => simp [ScanAllWithPaths, walkTop, scanFn, scanItemsTop, applyItems]
  | some t => simp [ScanAllWithPaths, walkTop, scanWalk_node, scanItemsTop]

theorem progSeq_bounds (e : Nat) (items : List (Option LocatedIdentity)) :
    ∀ s f, ∀ p ∈ progSeq e s f items,
      (s + 1 ≤ p.ScannedFiles ∧ p.ScannedFiles ≤ s + items.length) ∧
      (f ≤ p.HolonsFound ∧ p.HolonsFound ≤ f + itemsFound items) ∧
      (0 < e ∧ p.ScannedFiles % e = 0) := by
  induction items with
  | nil => intro s f p hp; simp [progSeq] at hp
  | cons it rest ih =>
    intro s f p hp
    rw [progSeq] at hp
    rcases List.mem_append.mp hp with h | h
    · by_cases hcc : 0 < e ∧ (s + 1) % e = 0
      · rw [if_pos hcc] at h
        simp at h
        subst h
        refine ⟨⟨Nat.le_refl _, by simp⟩, ⟨Nat.le_refl _, Nat.le_add_right _ _⟩, hcc⟩
      · rw [if_neg hcc] at h
        simp at h
    · have := ih (s + 1) (f + (if it.isSome then 1 else 0)) p h
      refine ⟨⟨Nat.le_of_succ_le this.1.1, ?_⟩,
        ⟨Nat.le_trans (Nat.le_add_right _ _) this.2.1.1, ?_⟩, this.2.2⟩
      · calc p.ScannedFiles ≤ s + 1 + rest.length := this.1.2
          _ = s + (it :: rest).length := by simp [Nat.add_comm 1, Nat.add_assoc]
      · calc p.HolonsFound ≤ f + (if it.isSome then 1 else 0) + itemsFound rest := this.2.1.2
          _ = f + itemsFound (it :: rest) := by rw [itemsFound_cons, Nat.add_assoc]

theorem progSeq_chain (e : Nat) (items : List (Option LocatedIdentity)) :
    ∀ s f, List.Chain'
      (fun a b : ScanProgress => a.ScannedFiles ≤ b.ScannedFiles ∧ a.HolonsFound ≤ b.HolonsFound)
      (progSeq e s f items ++ [⟨s + items.length, f + itemsFound items⟩]) := by
  induction items with
  | nil => intro s f; simp [progSeq]
  | cons it rest ih =>
    intro s f
    have harith1 : s + (it :: rest).length = s + 1 + rest.length := by
      simp [Nat.add_comm 1, Nat.add_assoc]
    have harith2 : f + itemsFound (it :: rest) =
        f + (if it.isSome then 1 else 0) + itemsFound rest := by
      rw [itemsFound_cons, Nat.add_assoc]
    rw [progSeq, harith1, harith2, List.append_assoc]
    have htail := ih (s + 1) (f + (if it.isSome then 1 else 0))
    by_cases hcc : 0 < e ∧ (s + 1) % e = 0
    · rw [if_pos hcc]
      refine List.chain'_cons'.mpr ⟨?_, htail⟩
      intro b hb
      have hmem : b ∈ progSeq e (s + 1) (f + (if it.isSome then 1 else 0)) rest ++
          [⟨s + 1 + rest.length, f + (if it.isSome then 1 else 0) + itemsFound rest⟩] :=
        List.mem_of_mem_head? hb
      rcases List.mem_append.mp hmem with hmem | hmem
      · have := progSeq_bounds e rest (s + 1) (f + (if it.isSome then 1 else 0)) b hmem
        exact ⟨Nat.le_of_succ_le this.1.1, Nat.le_trans (Nat.le_add_right _ _) this.2.1.1⟩
      · simp at hmem
        rw [hmem]
        exact ⟨Nat.le_add_right _ _, Nat.le_trans (Nat.le_add_right _ _) (Nat.le_add_right _ _)⟩
    · rw [if_neg hcc]
      simpa using htail

theorem progSeq_zero (items : List (Option LocatedIdentity)) :
    ∀ s f, progSeq 0 s f items = [] := by
  induction items with
  | nil => intro s f; rfl
  | cons it rest ih => intro s f; simp [progSeq, ih]

theorem scanItemsEntries_append (path : String) :
    (a : FSEntries) → ∀ b, scanItemsEntries path (a.append b) =
      scanItemsEntries path a ++ scanItemsEntries path b
  | .nil => by intro b; simp [FSEntries.append, scanItemsEntries]
  | .cons n t rest => by
    intro b
    simp [FSEntries.append, scanItemsEntries, scanItemsEntries_append path rest b]

/-- C6: during ScanAllWithPaths with interval N and a progress callback,
the emitted snapshot sequence is exactly progSeq (one snapshot per file
whose ordinal is a positive multiple of N, taken before that file's
record is counted) followed by one unconditional final snapshot (also
when N = 0); every snapshot before the final one has a positive scanned
count that is a multiple of N; scanned and found counts are non-decreasing
along the sequence; and the final snapshot's found count equals the number
of emitted records. -/
theorem scan_progress_reporting (rootPath rootName : String) (root : Option FSTree)
    (every : Nat) :
    (ScanAllWithPaths rootPath rootName root (Int.ofNat every) true).1.progress =
        progSeq every 0 0 (scanItemsTop rootPath rootName root) ++
          [⟨(scanItemsTop rootPath rootName root).length,
            itemsFound (scanItemsTop rootPath rootName root)⟩] ∧
    (∀ p ∈ progSeq every 0 0 (scanItemsTop rootPath rootName root),
        0 < every ∧ 0 < p.ScannedFiles ∧ p.ScannedFiles % every = 0) ∧
    List.Chain'
      (fun a b : ScanProgress =>
        a.ScannedFiles ≤ b.ScannedFiles ∧ a.HolonsFound ≤ b.HolonsFound)
      ((ScanAllWithPaths rootPath rootName root (Int.ofNat every) true).1.progress) ∧
    itemsFound (scanItemsTop rootPath rootName root) =
      ((ScanAllWithPaths rootPath rootName root (Int.ofNat every) true).1.emissions).length := by
  have hrun := ScanAllWithPaths_run rootPath rootName root (Int.ofNat every) true
  have hne : ¬((Int.ofNat every) < 0) := by
    simp
  rw [if_neg hne] at hrun
  have htn : (Int.ofNat every).toNat = every := by simp
  rw [htn] at hrun
  rw [applyItems_spec] at hrun
  refine ⟨?_, ?_, ?_, ?_⟩
  · rw [hrun]
    simp [reportProgress, ScanState.init, itemsEmissions]
  · intro p hp
    have := progSeq_bounds every (scanItemsTop rootPath rootName root) 0 0 p hp
    exact ⟨this.2.2.1, Nat.lt_of_lt_of_le (Nat.zero_lt_one) this.1.1, this.2.2.2⟩
  · rw [hrun]
    simp only [reportProgress, ScanState.init]
    simpa using progSeq_chain every (scanItemsTop rootPath rootName root) 0 0
  · rw [hrun]
    simp [reportProgress, ScanState.init, itemsEmissions, itemsFound]

set_option maxRecDepth 100000

theorem scan_progress_reporting_witness :
    (ScanAllWithPaths ("root") ("root") (some exTree) (Int.ofNat 1) true).1.progress =
      progSeq 1 0 0 (scanItemsTop ("root") ("root") (some exTree)) ++
        [⟨(scanItemsTop ("root") ("root") (some exTree)).length,
          itemsFound (scanItemsTop ("root") ("root") (some exTree))⟩] ∧
    ((0:Nat) < 1 ∧ 0 < (⟨1, 0⟩ : ScanProgress).ScannedFiles ∧
      (⟨1, 0⟩ : ScanProgress).ScannedFiles % 1 = 0) :=
  ⟨(scan_progress_reporting ("root") ("root") (some exTree) 1).1,
   (scan_progress_reporting ("root") ("root") (some exTree) 1).2.1 ⟨1, 0⟩ (by decide)⟩

/-- C10: a negative reporting interval behaves exactly like interval 0:
the scan returns the identical result (same records, same order, same
error), and with a progress callback present the callback fires exactly
once, after traversal, with the final counters. -/
theorem scan_negative_interval (rootPath rootName : String) (root : Option FSTree)
    (N : Int) (hp : Bool) (hN : N < 0) :
    ScanAllWithPaths rootPath rootName root N hp =
      ScanAllWithPaths rootPath rootName root 0 hp ∧
    (ScanAllWithPaths rootPath rootName root N true).1.progress =
      [⟨(scanItemsTop rootPath rootName root).length,
        itemsFound (scanItemsTop rootPath rootName root)⟩] := by
  constructor
  · rw [ScanAllWithPaths_run, ScanAllWithPaths_run,
      if_pos hN, if_neg (by omega : ¬((0:Int) < 0))]
    simp
  · rw [ScanAllWithPaths_run, if_pos hN, applyItems_spec]
    simp [reportProgress, ScanState.init, progSeq_zero, itemsEmissions, itemsFound]

theorem scan_negative_interval_witness :
    ((-5 : Int) < 0) ∧
    ScanAllWithPaths ("root") ("root") (some exTree) (-5) true =
      ScanAllWithPaths ("root") ("root") (some exTree) 0 true ∧
    (ScanAllWithPaths ("root") ("root") (some exTree) (-5) true).1.progress =
      [⟨(scanItemsTop ("root") ("root") (some exTree)).length,
        itemsFound (scanItemsTop ("root") ("root") (some exTree))⟩] :=
  ⟨by decide,
   (scan_negative_interval ("root") ("root") (some exTree) (-5) true (by decide)).1,
   (scan_negative_interval ("root") ("root") (some exTree) (-5) true (by decide)).2⟩

/-- C2 counterexample: scanning a nonexistent root does NOT return an
overall error — the walk callback swallows the lookup error, so
ScanAllWithPaths returns a nil error (with no emissions), contradicting
the claim that a missing root propagates as a single overall error. -/
theorem scan_missing_root_cex :
    (ScanAllWithPaths ("/nonexistent") ("nonexistent") none 0 true).2 = none ∧
    (ScanAllWithPaths ("/nonexistent") ("nonexistent") none 0 true).1.emissions = [] := by
  exact ⟨rfl, rfl⟩

theorem reportProgress_emissions (hp : Bool) (e : Nat) (force : Bool) (st : ScanState) :
    (reportProgress hp e force st).emissions = st.emissions := by
  rw [reportProgress]
  split_ifs <;> rfl

/-- C2 (amended): a traversal-level error is swallowed, not propagated:
for a root that does not exist or is an unreadable directory, the scan
returns success (nil error) and produces no onFound emissions; and a
per-entry error during walking is tolerated as a skip — replacing any
directory entry by an unreadable directory only removes the files beneath
it from the scan, leaving the scan of the rest of the tree unchanged. -/
theorem scan_missing_root_tolerated (rootPath rootName : String) (pe : Int) (hp : Bool) :
    ((ScanAllWithPaths rootPath rootName none pe hp).2 = none ∧
      (ScanAllWithPaths rootPath rootName none pe hp).1.emissions = [] ∧
      FindAll rootPath rootName none = ([], none)) ∧
    (∀ ents, (ScanAllWithPaths rootPath rootName (some (.dir false ents)) pe hp).2 = none ∧
      (ScanAllWithPaths rootPath rootName (some (.dir false ents)) pe hp).1.emissions = []) ∧
    (∀ (n : String) (pre post ents : FSEntries),
      ScanAllWithPaths rootPath rootName
          (some (.dir true (pre.append (.cons n (.dir false ents) post)))) pe hp =
        ScanAllWithPaths rootPath rootName (some (.dir true (pre.append post))) pe hp) := by
  refine ⟨⟨?_, ?_, ?_⟩, ?_, ?_⟩
  · rw [ScanAllWithPaths_run]
  · rw [ScanAllWithPaths_run]
    simp [reportProgress_emissions, applyItems_spec, scanItemsTop, ScanState.init,
      itemsEmissions]
  · rw [FindAll, FindAllWithPaths, ScanAllWithPaths_run]
    simp [reportProgress_emissions, applyItems_spec, scanItemsTop, ScanState.init,
      itemsEmissions]
  · intro ents
    rw [ScanAllWithPaths_run]
    constructor
    · rfl
    · have : scanItemsTop rootPath rootName (some (.dir false ents)) = [] := by
        rw [scanItemsTop, scanItems]
        split_ifs with h1 h2
        · rfl
        · rfl
        · exact absurd (by decide) h2
      rw [this]
      simp [reportProgress_emissions, applyItems_spec, ScanState.init, itemsEmissions]
  · intro n pre post ents
    rw [ScanAllWithPaths_run, ScanAllWithPaths_run]
    have hitems : scanItemsTop rootPath rootName
        (some (.dir true (pre.append (.cons n (.dir false ents) post)))) =
        scanItemsTop rootPath rootName (some (.dir true (pre.append post))) := by
      rw [scanItemsTop, scanItemsTop, scanItems, scanItems]
      split_ifs with hh h2
      · rfl
      · exact absurd h2 (by decide)
      · rw [scanItemsEntries_append, scanItemsEntries_append, scanItemsEntries]
        have hchild : scanItems (rootPath ++ "/" ++ n) n (.dir false ents) = [] := by
          rw [scanItems]
          split_ifs with g1 g2
          · rfl
          · rfl
          · exact absurd (by decide) g2
        rw [hchild]
        simp
    rw [hitems]

/-- C3: the bulk scanner never descends into a directory whose name
starts with a dot other than the literal names dot and .holon — visiting
such a directory leaves the scan state completely unchanged — whereas the
resolver's walk descends into every readable directory regardless of its
name; concretely, a valid record under a directory named .secret is
absent from FindAll's results yet FindByUUID resolves it. -/
theorem hidden_dir_asymmetry :
    (∀ (hp : Bool) (e : Nat) (st : ScanState) (path name : String) (r : Bool) (ents : FSEntries),
        goStartsWith name "." = true → name ≠ "." → name ≠ ".holon" →
        walkNode (scanFn hp e) st path name (.dir r ents) = (st, Ctl.next)) ∧
    (∀ (target st path name : String) (ents : FSEntries),
        walkNode (findFn target) st path name (.dir true ents) =
          walkEntries (findFn target) st path ents) ∧
    (FindAll ("root") ("root") (some secretTree)).1 = [] ∧
    FindByUUID ("root") ("root") (some secretTree) ("test-uuid-1234") =
      .ok ("root/.secret/HOLON.md") := by
  refine ⟨?_, ?_, by decide, by rfl⟩
  · intro hp e st path name r ents h1 h2 h3
    simp [walkNode, scanFn, h1, h2, h3]
  · intro target st path name ents
    simp [walkNode, findFn]

theorem hidden_dir_asymmetry_witness :
    (goStartsWith (".secret") "." = true ∧ (".secret" : String) ≠ "." ∧
      (".secret" : String) ≠ ".holon") ∧
    walkNode (scanFn true 1) ScanState.init ("root/.secret") (".secret")
      (.dir true .nil) = (ScanState.init, Ctl.next) :=
  ⟨⟨by decide, by decide, by decide⟩,
   hidden_dir_asymmetry.1 true 1 ScanState.init ("root/.secret") (".secret") true .nil
     (by decide) (by decide) (by decide)⟩

theorem holonsUnderEntries_path_ne (path : String) :
    (ents : FSEntries) → ∀ pr ∈ holonsUnderEntries path ents, pr.1 ≠ ""
  | .nil => by intro pr hpr; simp [holonsUnderEntries] at hpr
  | .cons n t rest => by
    intro pr hpr
    rw [holonsUnderEntries] at hpr
    rcases List.mem_append.mp hpr with h | h
    · have hne : path ++ "/" ++ n ≠ "" := by
        intro hemp
        have : (path ++ "/" ++ n).length = 0 := by rw [hemp]; rfl
        rw [String.length_append, String.length_append] at this
        have hone : ("/" : String).length = 1 := rfl
        omega
      cases t with
      | file r c =>
        rw [holonsUnder] at h
        split_ifs at h with hcond
        · simp at h
          rw [h]
          exact hne
        · simp at h
      | dir r ents2 =>
        rw [holonsUnder] at h
        split_ifs at h with hcond
        · exact holonsUnderEntries_path_ne (path ++ "/" ++ n) ents2 pr h
        · simp at h
    · exact holonsUnderEntries_path_ne path rest pr h

mutual
theorem findWalk_node (target : String) (path name : String) :
    (t : FSTree) →
      walkNode (findFn target) "" path name t =
        (match (holonsUnder path name t).find? (uuidMatches target) with
          | some pr => (pr.1, Ctl.skipAll)
          | none => ("", Ctl.next))
  | .file r c => by
    rcases hpc : ParseFrontmatter c with ⟨id, body, err⟩
    by_cases hn : name = "HOLON.md" <;> cases r <;> cases err <;>
      by_cases hm : (id.UUID = target || goStartsWith id.UUID target) = true <;>
        simp [walkNode, findFn, holonsUnder, hn, hpc, uuidMatches, hm, List.find?]
  | .dir r ents => by
    cases r with
    | false => simp [walkNode, findFn, holonsUnder]
    | true =>
      rw [walkNode]
      simp only [findFn, holonsUnder, if_true]
      exact findWalk_entries target path ents

theorem findWalk_entries (target : String) (path : String) :
    (ents : FSEntries) →
      walkEntries (findFn target) "" path ents =
        (match (holonsUnderEntries path ents).find? (uuidMatches target) with
          | some pr => (pr.1, Ctl.skipAll)
          | none => ("", Ctl.next))
  | .nil => by simp [walkEntries, holonsUnderEntries, List.find?]
  | .cons n t rest => by
    rw [walkEntries, holonsUnderEntries, findWalk_node target (path ++ "/" ++ n) n t]
    rcases hf : (holonsUnder (path ++ "/" ++ n) n t).find? (uuidMatches target) with _ | pr
    · rw [List.find?_append, hf]
      simp only [Option.none_orElse]
      exact findWalk_entries target path rest
    · rw [List.find?_append, hf]
      simp
end

/-- Characterization of FindByUUID shared by several results: when the
root path is nonempty (so that no record's path collides with the
empty-string sentinel of the found variable), the resolver returns the
path of the first record in traversal order whose UUID equals or starts
with the target, and the not-found error otherwise. -/
theorem findByUUID_char (rootPath rootName target : String) (root : Option FSTree)
    (hroot : rootPath ≠ "") :
    FindByUUID rootPath rootName root target =
      (match (holonsTop rootPath rootName root).find? (uuidMatches target) with
        | some pr => .ok pr.1
        | none => .error ("holon not found: " ++ target)) := by
  cases root with
  | none => simp [FindByUUID, walkTop, findFn, holonsTop, List.find?]
  | some t =>
    rw [FindByUUID]
    simp only [walkTop]
    rw [findWalk_node target rootPath rootName t]
    rcases hf : (holonsUnder rootPath rootName t).find? (uuidMatches target) with _ | pr
    · simp [holonsTop, hf]
    · have hmem := List.mem_of_find?_eq_some hf
      have hne : pr.1 ≠ "" := by
        cases t with
        | file r c =>
          rw [holonsUnder] at hmem
          split_ifs at hmem with hcond
          · simp at hmem
            rw [hmem]
            exact hroot
          · simp at hmem
        | dir r ents =>
          rw [holonsUnder] at hmem
          split_ifs at hmem with hcond
          · exact holonsUnderEntries_path_ne rootPath ents pr hmem
          · simp at hmem
      simp [holonsTop, hf, hne]

/-- C4: FindByUUID matches a decoded record exactly when its UUID equals
the target or starts with it; it returns the path of the first such
record in traversal order, and when no record matches it fails with the
error "holon not found: <target>".  (The nonempty root path keeps
record paths distinct from the empty-string sentinel the source uses for
its found variable.) -/
theorem findByUUID_semantics (rootPath rootName target : String) (root : Option FSTree)
    (hroot : rootPath ≠ "") :
    FindByUUID rootPath rootName root target =
      (match (holonsTop rootPath rootName root).find? (uuidMatches target) with
        | some pr => .ok pr.1
        | none => .error ("holon not found: " ++ target)) :=
  findByUUID_char rootPath rootName target root hroot

theorem findByUUID_semantics_witness :
    ("root" : String) ≠ "" ∧
    FindByUUID ("root") ("root") (some exTree) ("test") =
      (match (holonsTop ("root") ("root") (some exTree)).find? (uuidMatches ("test")) with
        | some pr => .ok pr.1
        | none => .error ("holon not found: " ++ "test")) :=
  ⟨by decide, findByUUID_semantics ("root") ("root") ("test") (some exTree) (by decide)⟩

/-- C9: on a root that contains at least one valid identity file, the
resolver called with the empty target succeeds with the path of the first
record in traversal order (every UUID has the empty string as a prefix),
and never returns the not-found error. -/
theorem findByUUID_empty_target (rootPath rootName : String) (root : Option FSTree)
    (p : String) (id : Identity) (rest : List (String × Identity))
    (hroot : rootPath ≠ "")
    (h : holonsTop rootPath rootName root = (p, id) :: rest) :
    FindByUUID rootPath rootName root "" = .ok p := by
  rw [findByUUID_char rootPath rootName "" root hroot, h]
  have hm : uuidMatches "" (p, id) = true := by
    simp [uuidMatches, goStartsWith]
  rw [List.find?_cons_of_pos _ hm]

theorem findByUUID_empty_target_witness :
    ("root" : String) ≠ "" ∧
    holonsTop ("root") ("root") (some exTree) =
      [("root/holon-a/HOLON.md",
        { UUID := "test-uuid-1234", GivenName := "TestHolon", FamilyName := "Prober",
          Motto := "Test all the things.", Composer := "B. ALTER",
          Clade := "deterministic/pure", Status := "draft", Born := "2026-01-01",
          Parents := [], Reproduction := "manual", Aliases := [],
          GeneratedBy := "test", Lang := "go", ProtoStatus := "draft" })] ∧
    FindByUUID ("root") ("root") (some exTree) "" = .ok ("root/holon-a/HOLON.md") :=
  ⟨by decide, by decide,
   findByUUID_empty_target ("root") ("root") (some exTree) ("root/holon-a/HOLON.md")
     { UUID := "test-uuid-1234", GivenName := "TestHolon", FamilyName := "Prober",
       Motto := "Test all the things.", Composer := "B. ALTER",
       Clade := "deterministic/pure", Status := "draft", Born := "2026-01-01",
       Parents := [], Reproduction := "manual", Aliases := [],
       GeneratedBy := "test", Lang := "go", ProtoStatus := "draft" } []
     (by decide) (by decide)⟩

theorem dedupEmissions_append (a : List LocatedIdentity) :
    ∀ seen b, dedupEmissions seen (a ++ b) =
      dedupEmissions seen a ++ dedupEmissions (dedupSeen seen a) b := by
  induction a with
  | nil => intro seen b; simp [dedupEmissions, dedupSeen]
  | cons h rest ih =>
    intro seen b
    rw [List.cons_append, dedupEmissions, dedupEmissions, dedupSeen]
    split_ifs with hk
    · exact ih seen b
    · rw [ih (dedupKey h :: seen) b, List.cons_append]

theorem dedupEmissions_nodup (ems : List LocatedIdentity) :
    ∀ seen, ((dedupEmissions seen ems).map dedupKey).Nodup ∧
      ∀ k ∈ (dedupEmissions seen ems).map dedupKey, k ∉ seen := by
  induction ems with
  | nil => intro seen; simp [dedupEmissions]
  | cons h rest ih =>
    intro seen
    rw [dedupEmissions]
    split_ifs with hk
    · exact ih seen
    · have := ih (dedupKey h :: seen)
      constructor
      · rw [List.map_cons, List.nodup_cons]
        refine ⟨fun hmem => ?_, this.1⟩
        exact this.2 (dedupKey h) hmem (List.mem_cons_self _ _)
      · intro k hkmem
        rw [List.map_cons, List.mem_cons] at hkmem
        rcases hkmem with hkmem | hkmem
        · rw [hkmem]; exact hk
        · have hnot := this.2 k hkmem
          intro hks
          exact hnot (List.mem_cons_of_mem _ hks)

theorem foldl_dedupe (origin : String) :
    ∀ (ems : List LocatedIdentity) (seen : List String) (acc : List ListEntry),
      List.foldl
        (fun (p : List String × List ListEntry) h =>
          if dedupKey h ∈ p.1 then p
          else (dedupKey h :: p.1, p.2 ++ [⟨h.Identity, origin, h.Path⟩]))
        (seen, acc) ems =
      (dedupSeen seen ems,
        acc ++ (dedupEmissions seen ems).map
          (fun h => (⟨h.Identity, origin, h.Path⟩ : ListEntry))) := by
  intro ems
  induction ems with
  | nil => intro seen acc; simp [dedupSeen, dedupEmissions]
  | cons h rest ih =>
    intro seen acc
    rw [List.foldl_cons, dedupSeen, dedupEmissions]
    by_cases hk : dedupKey h ∈ seen
    · rw [if_pos hk, if_pos hk, if_pos hk]
      exact ih seen acc
    · rw [if_neg hk, if_neg hk, if_neg hk]
      have h2 := ih (dedupKey h :: seen) (acc ++ [⟨h.Identity, origin, h.Path⟩])
      rw [List.append_assoc, List.singleton_append] at h2
      exact h2

theorem foldl_nodedupe (origin : String) :
    ∀ (ems : List LocatedIdentity) (seen : List String) (acc : List ListEntry),
      List.foldl
        (fun (p : List String × List ListEntry) h =>
          (p.1, p.2 ++ [⟨h.Identity, origin, h.Path⟩]))
        (seen, acc) ems =
      (seen, acc ++ ems.map (fun h => (⟨h.Identity, origin, h.Path⟩ : ListEntry))) := by
  intro ems
  induction ems with
  | nil => intro seen acc; simp
  | cons h rest ih =>
    intro seen acc
    rw [List.foldl_cons]
    have h2 := ih seen (acc ++ [⟨h.Identity, origin, h.Path⟩])
    rw [List.append_assoc, List.singleton_append] at h2
    exact h2

/-- C7: aggregated listing scans, in order, the holons subdirectory of
the root, the root itself, and the global cache; the first two scans
share one de-duplication set keyed by UUID (file path for an empty UUID),
so their rows are exactly the first-occurrence records of the two
emission streams in order, every one labelled local and each key emitted
at most once; the cache scan's rows are appended unfiltered, labelled
cached. -/
theorem runList_aggregation (rootPath rootName : String) (rootTree : Option FSTree)
    (cachePath cacheName : String) (cacheTree : Option FSTree) :
    RunList rootPath rootName rootTree cachePath cacheName cacheTree =
      (dedupEmissions []
          ((ScanAllWithPaths (rootPath ++ "/holons") ("holons") (subTree rootTree "holons")
              500 true).1.emissions ++
            (ScanAllWithPaths rootPath rootName rootTree 500 true).1.emissions)).map
        (fun h => (⟨h.Identity, "local", h.Path⟩ : ListEntry)) ++
      ((ScanAllWithPaths cachePath cacheName cacheTree 500 true).1.emissions).map
        (fun h => (⟨h.Identity, "cached", h.Path⟩ : ListEntry)) ∧
    ((dedupEmissions []
        ((ScanAllWithPaths (rootPath ++ "/holons") ("holons") (subTree rootTree "holons")
            500 true).1.emissions ++
          (ScanAllWithPaths rootPath rootName rootTree 500 true).1.emissions)).map
      dedupKey).Nodup := by
  constructor
  · rw [RunList]
    simp only [scanAndPrint,
      show ((true : Bool) = true) = True from by simp,
      show ((false : Bool) = true) = False from by simp, if_true, if_false,
      ite_true, ite_false]
    rw [foldl_dedupe, foldl_dedupe, foldl_nodedupe]
    rw [dedupEmissions_append, List.map_append]
    simp [List.append_assoc]
  · exact (dedupEmissions_nodup _ []).1

/-- C8: CreateIdentity returns an InvalidArgument-style validation error
exactly when one of given_name, family_name, motto, composer is empty or
whitespace-only (the error being the corresponding "... is required"
message); when all four are non-blank it succeeds with a record carrying
the generated identifier and with the path of the written HOLON.md file;
and in the failure case nothing is written. -/
theorem createIdentity_validation (genUUID today : String) (r : CreateReq) :
    ((∀ x, CreateIdentity genUUID today (some r) ≠ .ok x) ↔
      (goTrimSpace r.givenName = "" ∨ goTrimSpace r.familyName = "" ∨
        goTrimSpace r.motto = "" ∨ goTrimSpace r.composer = "")) ∧
    (∀ e, CreateIdentity genUUID today (some r) = .error e →
      e ∈ ["given_name is required", "family_name is required",
        "motto is required", "composer is required"]) ∧
    (goTrimSpace r.givenName ≠ "" → goTrimSpace r.familyName ≠ "" →
      goTrimSpace r.motto ≠ "" → goTrimSpace r.composer ≠ "" →
      ∃ pr, CreateIdentity genUUID today (some r) = .ok pr ∧
        pr.1.UUID = genUUID ∧
        pr.2.1 = (if r.outputDir = "" then
            ".holon/" ++ defaultDirName r.givenName r.familyName
          else r.outputDir) ++ "/HOLON.md") ∧
    (∀ e, CreateIdentity genUUID today (some r) = .error e →
      createWrites (CreateIdentity genUUID today (some r)) = []) := by
  by_cases h1 : goTrimSpace r.givenName = ""
  · rw [CreateIdentity, if_pos h1]
    refine ⟨?_, ?_, ?_, ?_⟩ <;> simp [createWrites, h1]
  · by_cases h2 : goTrimSpace r.familyName = ""
    · rw [CreateIdentity, if_neg h1, if_pos h2]
      refine ⟨?_, ?_, ?_, ?_⟩ <;> simp [createWrites, h1, h2]
    · by_cases h3 : goTrimSpace r.motto = ""
      · rw [CreateIdentity, if_neg h1, if_neg h2, if_pos h3]
        refine ⟨?_, ?_, ?_, ?_⟩ <;> simp [createWrites, h1, h2, h3]
      · by_cases h4 : goTrimSpace r.composer = ""
        · rw [CreateIdentity, if_neg h1, if_neg h2, if_neg h3, if_pos h4]
          refine ⟨?_, ?_, ?_, ?_⟩ <;> simp [createWrites, h1, h2, h3, h4]
        · rw [CreateIdentity, if_neg h1, if_neg h2, if_neg h3, if_neg h4]
          refine ⟨?_, by simp, ?_, by simp⟩
          · constructor
            · intro hno
              exact ((hno _ rfl).elim)
            · intro hor
              rcases hor with h | h | h | h
              · exact absurd h h1
              · exact absurd h h2
              · exact absurd h h3
              · exact absurd h h4
          · intro _ _ _ _
            refine ⟨_, rfl, ?_, ?_⟩
            · dsimp only [identityNew]
              split_ifs <;> rfl
            · dsimp only [identityNew]
              split_ifs <;> rfl

theorem createIdentity_validation_witness :
    goTrimSpace ("Giv") ≠ "" ∧
    (∃ pr, CreateIdentity ("u1") ("2026-01-01")
        (some ⟨"Giv", "Fam", "Mot", "Com", .deterministicPure, .manual, "go", [], "out"⟩) =
          .ok pr ∧
      pr.1.UUID = "u1" ∧
      pr.2.1 = (if ("out" : String) = "" then
          ".holon/" ++ defaultDirName ("Giv") ("Fam")
        else "out") ++ "/HOLON.md") :=
  ⟨by decide,
   (createIdentity_validation ("u1") ("2026-01-01")
       ⟨"Giv", "Fam", "Mot", "Com", .deterministicPure, .manual, "go", [], "out"⟩).2.2.1
     (by decide) (by decide) (by decide) (by decide)⟩

theorem parseFMChars_error_shape (cs : List Char) :
    (parseFMChars cs).2.2 ≠ none → parseFMChars cs = ({}, [], (parseFMChars cs).2.2) := by
  rw [parseFMChars]
  split_ifs with ht
  · dsimp only
    rcases idxNlDashes (if (cs.drop 3).head? = some '\n' then (cs.drop 3).drop 1
        else cs.drop 3) with _ | e
    · exact fun _ => rfl
    · dsimp only
      rcases yamlUnmarshal ((if (cs.drop 3).head? = some '\n' then (cs.drop 3).drop 1
          else cs.drop 3).take e) with _ | id
      · exact fun _ => rfl
      · intro h
        exact absurd rfl h
  · exact fun _ => rfl

/-- C5: ParseFrontmatter fails when the content does not begin with the
three-dash delimiter ("no YAML frontmatter found"), when no newline
followed by the delimiter occurs after the opening ("unclosed YAML
frontmatter"), or when the block between the delimiters is not a valid
key-value mapping ("YAML parse error"); in every failure case the
returned record is the zero Identity and the body is empty — no partial
record is produced. -/
theorem parseFrontmatter_failures (data : String) :
    (data.toList.take 3 ≠ "---".toList →
      ParseFrontmatter data = ({}, "", some "no YAML frontmatter found")) ∧
    (data.toList.take 3 = "---".toList →
      idxNlDashes (if (data.toList.drop 3).head? = some '\n'
          then (data.toList.drop 3).drop 1 else data.toList.drop 3) = none →
      ParseFrontmatter data = ({}, "", some "unclosed YAML frontmatter")) ∧
    (∀ e, data.toList.take 3 = "---".toList →
      idxNlDashes (if (data.toList.drop 3).head? = some '\n'
          then (data.toList.drop 3).drop 1 else data.toList.drop 3) = some e →
      yamlUnmarshal ((if (data.toList.drop 3).head? = some '\n'
          then (data.toList.drop 3).drop 1 else data.toList.drop 3).take e) = none →
      ParseFrontmatter data = ({}, "", some "YAML parse error")) ∧
    (∀ id body err, ParseFrontmatter data = (id, body, some err) →
      id = ({} : Identity) ∧ body = "") := by
  refine ⟨?_, ?_, ?_, ?_⟩
  · intro h
    rw [ParseFrontmatter, parseFMChars, if_neg h]
  · intro ht hidx
    rw [ParseFrontmatter, parseFMChars, if_pos ht]
    dsimp only
    rw [hidx]
  · intro e ht hidx hyaml
    rw [ParseFrontmatter, parseFMChars, if_pos ht]
    dsimp only
    rw [hidx]
    dsimp only
    rw [hyaml]
  · intro id body err heq
    rcases hp : parseFMChars data.toList with ⟨i, b, er⟩
    rw [ParseFrontmatter, hp] at heq
    have hne : (parseFMChars data.toList).2.2 ≠ none := by
      rw [hp]
      have : er = some err := congrArg (fun t => t.2.2) heq
      rw [this]
      simp
    have hshape := parseFMChars_error_shape data.toList hne
    rw [hp] at hshape
    have hi : i = ({} : Identity) := congrArg (fun t => t.1) hshape
    have hb : b = ([] : List Char) := congrArg (fun t => t.2.1) hshape
    have hid : id = i := (congrArg (fun t => t.1) heq).symm
    have hbody : body = (⟨b⟩ : String) := (congrArg (fun t => t.2.1) heq).symm
    rw [hid, hi, hbody, hb]
    exact ⟨rfl, rfl⟩

theorem parseFrontmatter_failures_witness :
    ("xyz").toList.take 3 ≠ "---".toList ∧
    ParseFrontmatter ("xyz") = ({}, "", some "no YAML frontmatter found") :=
  ⟨by decide, (parseFrontmatter_failures ("xyz")).1 (by decide)⟩

theorem stringMk_toList (s : String) : (⟨s.toList⟩ : String) = s := rfl

theorem hexVal_getD : ∀ n < 16, hexVal ("0123456789abcdef".toList.getD n '0') = some n := by
  decide

theorem dqCore_cons_raw (c : Char) (xs : List Char) (h1 : c ≠ '"') (h2 : c ≠ '\\') :
    dqCore (c :: xs) = (dqCore xs).map (fun p => (c :: p.1, p.2)) := by
  rw [dqCore.eq_def]
  simp [h1, h2]

theorem dqCore_x (d1 d2 : Char) (a b : Nat) (xs : List Char)
    (h1 : hexVal d1 = some a) (h2 : hexVal d2 = some b) :
    dqCore ('\\' :: 'x' :: d1 :: d2 :: xs) =
      (dqCore xs).map (fun p => (Char.ofNat (16 * a + b) :: p.1, p.2)) := by
  rw [dqCore.eq_def]
  simp +decide [h1, h2]

theorem dqCore_quoteChar (c : Char) (xs : List Char) :
    dqCore (goQuoteChar c ++ xs) = (dqCore xs).map (fun p => (c :: p.1, p.2)) := by
  by_cases h1 : c = '"'
  · subst h1
    rw [show goQuoteChar '"' = ['\\', '"'] from rfl, List.cons_append, List.cons_append,
      List.nil_append, dqCore.eq_def]
    simp +decide
  by_cases h2 : c = '\\'
  · subst h2
    rw [show goQuoteChar '\\' = ['\\', '\\'] from rfl, List.cons_append, List.cons_append,
      List.nil_append, dqCore.eq_def]
    simp +decide
  by_cases h3 : 0x20 ≤ c.toNat ∧ c.toNat ≤ 0x7e
  · rw [goQuoteChar, if_neg h1, if_neg h2, if_pos h3, List.singleton_append]
    exact dqCore_cons_raw c xs h1 h2
  by_cases h4 : c = Char.ofNat 7
  · subst h4
    rw [goQuoteChar, if_neg h1, if_neg h2, if_neg h3, if_pos rfl, List.cons_append,
      List.cons_append, List.nil_append, dqCore.eq_def]
    simp +decide
  by_cases h5 : c = Char.ofNat 8
  · subst h5
    rw [goQuoteChar, if_neg h1, if_neg h2, if_neg h3, if_neg h4, if_pos rfl,
      List.cons_append, List.cons_append, List.nil_append, dqCore.eq_def]
    simp +decide
  by_cases h6 : c = Char.ofNat 12
  · subst h6
    rw [goQuoteChar, if_neg h1, if_neg h2, if_neg h3, if_neg h4, if_neg h5, if_pos rfl,
      List.cons_append, List.cons_append, List.nil_append, dqCore.eq_def]
    simp +decide
  by_cases h7 : c = '\n'
  · subst h7
    rw [goQuoteChar, if_neg h1, if_neg h2, if_neg h3, if_neg h4, if_neg h5, if_neg h6,
      if_pos rfl, List.cons_append, List.cons_append, List.nil_append, dqCore.eq_def]
    simp +decide
  by_cases h8 : c = '\r'
  · subst h8
    rw [goQuoteChar, if_neg h1, if_neg h2, if_neg h3, if_neg h4, if_neg h5, if_neg h6,
      if_neg h7, if_pos rfl, List.cons_append, List.cons_append, List.nil_append,
      dqCore.eq_def]
    simp +decide
  by_cases h9 : c = '\t'
  · subst h9
    rw [goQuoteChar, if_neg h1, if_neg h2, if_neg h3, if_neg h4, if_neg h5, if_neg h6,
      if_neg h7, if_neg h8, if_pos rfl, List.cons_append, List.cons_append,
      List.nil_append, dqCore.eq_def]
    simp +decide
  by_cases h10 : c = Char.ofNat 11
  · subst h10
    rw [goQuoteChar, if_neg h1, if_neg h2, if_neg h3, if_neg h4, if_neg h5, if_neg h6,
      if_neg h7, if_neg h8, if_neg h9, if_pos rfl, List.cons_append, List.cons_append,
      List.nil_append, dqCore.eq_def]
    simp +decide
  by_cases h11 : c.toNat < 0x20 ∨ c.toNat = 0x7f
  · have hd1 : c.toNat / 16 < 16 := by omega
    have hd2 : c.toNat % 16 < 16 := by omega
    rw [goQuoteChar, if_neg h1, if_neg h2, if_neg h3, if_neg h4, if_neg h5, if_neg h6,
      if_neg h7, if_neg h8, if_neg h9, if_neg h10, if_pos h11, List.cons_append,
      List.cons_append, List.cons_append, List.cons_append, List.nil_append]
    rw [dqCore_x _ _ _ _ xs (hexVal_getD _ hd1) (hexVal_getD _ hd2)]
    rw [Nat.div_add_mod, Char.ofNat_toNat]
  · rw [goQuoteChar, if_neg h1, if_neg h2, if_neg h3, if_neg h4, if_neg h5, if_neg h6,
      if_neg h7, if_neg h8, if_neg h9, if_neg h10, if_neg h11, List.singleton_append]
    exact dqCore_cons_raw c xs h1 h2

theorem dqCore_quoteInner (l : List Char) :
    ∀ xs, dqCore (goQuoteInner l ++ xs) = (dqCore xs).map (fun p => (l ++ p.1, p.2)) := by
  induction l with
  | nil =>
    intro xs
    rw [goQuoteInner, List.nil_append]
    cases dqCore xs with
    | none => rfl
    | some p => rfl
  | cons c rest ih =>
    intro xs
    rw [goQuoteInner, List.append_assoc, dqCore_quoteChar, ih xs]
    cases dqCore xs with
    | none => rfl
    | some p => rfl

theorem dqCore_quote (s : List Char) (rest : List Char) :
    dqCore (goQuoteInner s ++ '"' :: rest) = some (s, rest) := by
  rw [dqCore_quoteInner]
  rw [show dqCore ('"' :: rest) = some ([], rest) by rw [dqCore.eq_def]; simp]
  simp

theorem hexGetD_ne_nl : ∀ i, "0123456789abcdef".toList.getD i '0' ≠ '\n' := by
  intro i
  rcases Nat.lt_or_ge i 16 with h | h
  · revert h
    revert i
    decide
  · rw [List.getD_eq_default]
    · decide
    · simpa using h

theorem goQuoteChar_no_nl (c : Char) : '\n' ∉ goQuoteChar c := by
  rw [goQuoteChar]
  by_cases h1 : c = '"'
  · rw [if_pos h1]; decide
  rw [if_neg h1]
  by_cases h2 : c = '\\'
  · rw [if_pos h2]; decide
  rw [if_neg h2]
  by_cases h3 : 0x20 ≤ c.toNat ∧ c.toNat ≤ 0x7e
  · rw [if_pos h3]
    intro hm
    have : '\n' = c := by simpa using hm
    rw [← this] at h3
    exact absurd h3 (by decide)
  rw [if_neg h3]
  by_cases h4 : c = Char.ofNat 7
  · rw [if_pos h4]; decide
  rw [if_neg h4]
  by_cases h5 : c = Char.ofNat 8
  · rw [if_pos h5]; decide
  rw [if_neg h5]
  by_cases h6 : c = Char.ofNat 12
  · rw [if_pos h6]; decide
  rw [if_neg h6]
  by_cases h7 : c = '\n'
  · rw [if_pos h7]; decide
  rw [if_neg h7]
  by_cases h8 : c = '\r'
  · rw [if_pos h8]; decide
  rw [if_neg h8]
  by_cases h9 : c = '\t'
  · rw [if_pos h9]; decide
  rw [if_neg h9]
  by_cases h10 : c = Char.ofNat 11
  · rw [if_pos h10]; decide
  rw [if_neg h10]
  by_cases h11 : c.toNat < 0x20 ∨ c.toNat = 0x7f
  · rw [if_pos h11]
    intro hm
    rcases (by simpa using hm : '\n' = '\\' ∨ '\n' = 'x' ∨
        '\n' = "0123456789abcdef".toList.getD (c.toNat / 16) '0' ∨
        '\n' = "0123456789abcdef".toList.getD (c.toNat % 16) '0') with h | h | h | h
    · exact absurd h (by decide)
    · exact absurd h (by decide)
    · exact hexGetD_ne_nl _ h.symm
    · exact hexGetD_ne_nl _ h.symm
  · rw [if_neg h11]
    intro hm
    have : '\n' = c := by simpa using hm
    rw [← this] at h11
    exact h11 (Or.inl (by decide))

theorem goQuoteInner_no_nl (l : List Char) : '\n' ∉ goQuoteInner l := by
  induction l with
  | nil => rw [goQuoteInner]; simp
  | cons c rest ih =>
    rw [goQuoteInner]
    intro hm
    rcases List.mem_append.mp hm with h | h
    · exact goQuoteChar_no_nl c h
    · exact ih h

theorem goQuoteStr_no_nl (s : String) : '\n' ∉ goQuoteStr s := by
  rw [goQuoteStr]
  intro hm
  rcases List.mem_cons.mp hm with h | h
  · exact absurd h (by decide)
  · rcases List.mem_append.mp h with h | h
    · exact goQuoteInner_no_nl _ h
    · simp at h

theorem joinQuoted_no_nl (ps : List String) : '\n' ∉ joinQuoted ps := by
  induction ps with
  | nil => rw [joinQuoted]; simp
  | cons p rest ih =>
    cases rest with
    | nil => exact goQuoteStr_no_nl p
    | cons q qs =>
      show '\n' ∉ goQuoteStr p ++ (", ".toList ++ joinQuoted (q :: qs))
      intro hm
      rcases List.mem_append.mp hm with h | h
      · exact goQuoteStr_no_nl p h
      · rcases List.mem_append.mp h with h | h
        · simp at h
        · exact ih h

theorem idx_noNl (l : List Char) (tail : List Char) (h : '\n' ∉ l) :
    idxNlDashes (l ++ '\n' :: '-' :: '-' :: '-' :: tail) = some l.length := by
  induction l with
  | nil =>
    rw [List.nil_append, idxNlDashes]
    simp
  | cons c rest ih =>
    rw [List.cons_append, idxNlDashes, if_neg, ih (fun hm => h (List.mem_cons_of_mem c hm))]
    · rfl
    · intro hc
      exact h (hc.1 ▸ List.mem_cons_self c rest)

theorem idx_append_noNl (l : List Char) (ys : List Char) (h : '\n' ∉ l) :
    idxNlDashes (l ++ ys) = (idxNlDashes ys).map (fun n => l.length + n) := by
  induction l with
  | nil =>
    rw [List.nil_append]
    cases idxNlDashes ys with
    | none => rfl
    | some n => simp
  | cons c rest ih =>
    rw [List.cons_append, idxNlDashes, if_neg, ih (fun hm => h (List.mem_cons_of_mem c hm))]
    · cases idxNlDashes ys with
      | none => rfl
      | some n => simp [Nat.add_comm, Nat.add_assoc, Nat.add_left_comm]
    · intro hc
      exact h (hc.1 ▸ List.mem_cons_self c rest)

theorem take3_ne (zs : List Char) (h : zs.head? ≠ some '-') :
    zs.take 3 ≠ ['-', '-', '-'] := by
  cases zs with
  | nil => simp
  | cons c rest =>
    intro heq
    have : c = '-' := by
      have := congrArg List.head? heq
      simpa using this
    exact h (by simp [this])

theorem head_nlJoin_append (lines : List (List Char)) (w : List Char)
    (h : ∀ l ∈ lines, l.head? ≠ some '-') :
    (nlJoin lines ++ '\n' :: w).head? ≠ some '-' := by
  cases lines with
  | nil => rw [nlJoin]; simp
  | cons l rest =>
    cases l with
    | nil =>
      cases rest with
      | nil => rw [nlJoin]; simp
      | cons r rs =>
        rw [show nlJoin ([] :: r :: rs) = [] ++ '\n' :: nlJoin (r :: rs) from rfl]
        simp
    | cons c l2 =>
      have hc : c ≠ '-' := by
        intro hc
        exact h (c :: l2) (List.mem_cons_self _ _) (by simp [hc])
      cases rest with
      | nil => rw [nlJoin]; simpa using hc
      | cons r rs =>
        rw [show nlJoin ((c :: l2) :: r :: rs) = (c :: l2) ++ '\n' :: nlJoin (r :: rs) from rfl]
        simpa using hc

theorem idx_nlJoin (lines : List (List Char)) (tail : List Char)
    (hne : lines ≠ [])
    (hOK : ∀ l ∈ lines, ('\n' ∉ l) ∧ l.head? ≠ some '-') :
    idxNlDashes (nlJoin lines ++ '\n' :: '-' :: '-' :: '-' :: tail) =
      some (nlJoin lines).length := by
  induction lines with
  | nil => exact absurd rfl hne
  | cons l rest ih =>
    cases rest with
    | nil =>
      rw [nlJoin]
      exact idx_noNl l tail (hOK l (List.mem_cons_self _ _)).1
    | cons l2 rs =>
      rw [show nlJoin (l :: l2 :: rs) = l ++ '\n' :: nlJoin (l2 :: rs) from rfl,
        List.append_assoc, List.cons_append]
      rw [idx_append_noNl l _ (hOK l (List.mem_cons_self _ _)).1]
      rw [idxNlDashes, if_neg]
      · rw [ih (by simp) (fun m hm => hOK m (List.mem_cons_of_mem _ hm))]
        simp [Nat.add_comm, Nat.add_assoc, Nat.add_left_comm]
      · intro hcond
        exact take3_ne _ (head_nlJoin_append (l2 :: rs) ('-' :: '-' :: '-' :: tail)
          (fun m hm => (hOK m (List.mem_cons_of_mem _ hm)).2)) hcond.2

theorem splitLines_noNl (l : List Char) (h : '\n' ∉ l) : splitLinesChars l = [l] := by
  induction l with
  | nil => rfl
  | cons c rest ih =>
    rw [splitLinesChars,
      if_neg (show ¬c = '\n' from fun hc => h (hc ▸ List.mem_cons_self c rest)),
      ih (fun hm => h (List.mem_cons_of_mem c hm))]

theorem splitLines_append (l : List Char) (rest : List Char) (h : '\n' ∉ l) :
    splitLinesChars (l ++ '\n' :: rest) = l :: splitLinesChars rest := by
  induction l with
  | nil =>
    rw [List.nil_append, splitLinesChars, if_pos rfl]
  | cons c l2 ih =>
    rw [List.cons_append, splitLinesChars,
      if_neg (show ¬c = '\n' from fun hc => h (hc ▸ List.mem_cons_self c l2)),
      ih (fun hm => h (List.mem_cons_of_mem c hm))]

theorem splitLines_nlJoin (lines : List (List Char)) (hne : lines ≠ [])
    (hOK : ∀ l ∈ lines, '\n' ∉ l) :
    splitLinesChars (nlJoin lines) = lines := by
  induction lines with
  | nil => exact absurd rfl hne
  | cons l rest ih =>
    cases rest with
    | nil => exact splitLines_noNl l (hOK l (List.mem_cons_self _ _))
    | cons l2 rs =>
      rw [show nlJoin (l :: l2 :: rs) = l ++ '\n' :: nlJoin (l2 :: rs) from rfl,
        splitLines_append l _ (hOK l (List.mem_cons_self _ _)),
        ih (by simp) (fun m hm => hOK m (List.mem_cons_of_mem _ hm))]

theorem splitColon_key (key : List Char) (rest : List Char) (h : ':' ∉ key) :
    splitColon (key ++ ':' :: rest) = some (key, rest) := by
  induction key with
  | nil => rw [List.nil_append, splitColon, if_pos rfl]
  | cons c l2 ih =>
    rw [List.cons_append, splitColon,
      if_neg (show ¬c = ':' from fun hc => h (hc ▸ List.mem_cons_self c l2)),
      ih (fun hm => h (List.mem_cons_of_mem c hm))]
    rfl

theorem dropWhileSp_no (l : List Char) (h : l.head? ≠ some ' ') :
    l.dropWhile (fun c => c = ' ') = l := by
  cases l with
  | nil => rfl
  | cons c rest =>
    have hcc : ¬c = ' ' := fun heq => h (by simp [heq])
    simp [hcc]

theorem skipSp_no_sp (l : List Char) (h : l.head? ≠ some ' ') : skipSp l = l := by
  rw [skipSp, dropWhileSp_no l h]

theorem cutComment_no_sp (l : List Char) (h : ' ' ∉ l) : cutComment l = l := by
  induction l with
  | nil => rfl
  | cons c rest ih =>
    rw [cutComment,
      if_neg (show ¬(c = ' ' ∧ rest.head? = some '#') from
        fun hc => h (hc.1 ▸ List.mem_cons_self c rest)),
      ih (fun hm => h (List.mem_cons_of_mem c hm))]

theorem trimEndSp_no_sp (l : List Char) (h : ' ' ∉ l) : trimEndSp l = l := by
  have hhead : l.reverse.head? ≠ some ' ' := by
    cases hrev : l.reverse with
    | nil => simp
    | cons c rest =>
      have : c ∈ l := by
        rw [← List.mem_reverse, hrev]
        exact List.mem_cons_self _ _
      intro hc
      simp at hc
      exact h (hc ▸ this)
  rw [trimEndSp, dropWhileSp_no _ hhead, List.reverse_reverse]

theorem badPlainPair_no_colon (l : List Char) (h : ':' ∉ l) : badPlainPair l = false := by
  induction l with
  | nil => rfl
  | cons c rest ih =>
    rw [badPlainPair,
      if_neg (show ¬(c = ':' ∧ rest.head? = some ' ') from
        fun hc => h (hc.1 ▸ List.mem_cons_self c rest)),
      ih (fun hm => h (List.mem_cons_of_mem c hm))]

theorem plainSafeChar_facts (d : Char) (h : plainSafeChar d = true) :
    d ≠ '\n' ∧ d ≠ ' ' ∧ d ≠ ':' := by
  refine ⟨?_, ?_, ?_⟩ <;>
    (intro heq; subst heq; exact absurd h (by decide))

theorem plainSafe_shape (s : String) (h : plainSafe s = true) :
    ∃ c rest, s.toList = c :: rest ∧ plainAlpha c = true ∧
      (∀ d ∈ s.toList, plainSafeChar d = true) ∧ yamlKeyword s.toList = false := by
  rw [plainSafe] at h
  rcases hs : s.toList with _ | ⟨c, rest⟩
  · rw [hs] at h
    exact absurd h (by decide)
  · rw [hs] at h
    simp only [Bool.and_eq_true, List.all_eq_true, Bool.not_eq_true'] at h
    exact ⟨c, rest, rfl, h.1.1, h.1.2, h.2⟩

theorem plainVal_safe (s : String) (h : plainSafe s = true) :
    plainVal s.toList = some (.str s.toList) := by
  obtain ⟨c, rest, hs, hAlpha, hAll, hKw⟩ := plainSafe_shape s h
  have hnsp : ' ' ∉ s.toList := fun hm => ((plainSafeChar_facts _ (hAll _ hm)).2.1) rfl
  have hncolon : ':' ∉ s.toList := fun hm => ((plainSafeChar_facts _ (hAll _ hm)).2.2) rfl
  have hnum : numericLike s.toList = false := by
    rw [hs, numericLike]
    have hd : digitChar c = false := by
      rw [digitChar]
      simp only [plainAlpha, Bool.or_eq_true, Bool.and_eq_true, decide_eq_true_eq] at hAlpha
      simp only [Bool.and_eq_false_iff, decide_eq_false_iff_not]
      omega
    have h1 : c ≠ '-' := fun heq => by rw [heq] at hAlpha; exact absurd hAlpha (by decide)
    have h2 : c ≠ '+' := fun heq => by rw [heq] at hAlpha; exact absurd hAlpha (by decide)
    have h3 : c ≠ '.' := fun heq => by rw [heq] at hAlpha; exact absurd hAlpha (by decide)
    simp [hd, h1, h2, h3]
  simp only [plainVal]
  rw [cutComment_no_sp _ hnsp, trimEndSp_no_sp _ hnsp]
  rw [if_neg (by rw [hs]; simp), if_neg (by rw [hKw]; simp),
    if_neg (by rw [hnum]; simp), if_neg (by rw [badPlainPair_no_colon _ hncolon]; simp)]

theorem joinQuoted_flowTail (p : String) :
    ∀ rest, joinQuoted (p :: rest) ++ [']'] = '"' :: flowTail (p :: rest) := by
  intro rest
  induction rest generalizing p with
  | nil =>
    rw [show joinQuoted [p] = goQuoteStr p from rfl, goQuoteStr,
      show flowTail [p] = goQuoteInner p.toList ++ ('"' :: ']' :: []) from rfl]
    simp
  | cons q qs ih =>
    rw [show joinQuoted (p :: q :: qs) = goQuoteStr p ++ (", ".toList ++ joinQuoted (q :: qs))
        from rfl,
      show flowTail (p :: q :: qs) =
        goQuoteInner p.toList ++ ('"' :: ',' :: ' ' :: '"' :: flowTail (q :: qs)) from rfl,
      goQuoteStr]
    have := ih q
    simp only [List.append_assoc, List.cons_append, List.nil_append] at this ⊢
    rw [show (", ".toList : List Char) = [',', ' '] from rfl]
    simp [this]

theorem flowTail_len : ∀ ps : List String, ps.length ≤ (flowTail ps).length := by
  intro ps
  induction ps with
  | nil => simp [flowTail]
  | cons p rest ih =>
    cases rest with
    | nil => simp [flowTail]
    | cons q qs =>
      rw [show flowTail (p :: q :: qs) =
        goQuoteInner p.toList ++ ('"' :: ',' :: ' ' :: '"' :: flowTail (q :: qs)) from rfl]
      simp only [List.length_append, List.length_cons]
      have h2 := ih
      simp only [List.length_cons] at h2 ⊢
      omega

theorem flowItems_join :
    ∀ (ps : List String) (n : Nat), ps ≠ [] → ps.length ≤ n →
      flowItems n (flowTail ps) = some (ps.map (fun p => p.toList), []) := by
  intro ps
  induction ps with
  | nil => intro n h; exact absurd rfl h
  | cons p rest ih =>
    intro n _ hlen
    cases n with
    | zero => simp at hlen
    | succ m =>
      cases rest with
      | nil =>
        rw [show flowTail [p] = goQuoteInner p.toList ++ ('"' :: ']' :: []) from rfl,
          flowItems, dqCore_quote]
        dsimp only
        rw [skipSp_no_sp _ (by simp)]
        simp
      | cons q qs =>
        rw [show flowTail (p :: q :: qs) =
          goQuoteInner p.toList ++ ('"' :: ',' :: ' ' :: '"' :: flowTail (q :: qs)) from rfl,
          flowItems, dqCore_quote]
        dsimp only
        rw [skipSp_no_sp _ (by simp)]
        simp only [if_neg (by decide : ¬(',' : Char) = ']'), if_pos rfl]
        rw [show skipSp (' ' :: '"' :: flowTail (q :: qs)) = '"' :: flowTail (q :: qs) by
          rw [skipSp]
          simp]
        simp only [if_pos rfl]
        rw [ih m (by simp) (by simpa using Nat.le_of_succ_le_succ hlen)]
        simp

theorem skipSp_cons_sp (l : List Char) : skipSp (' ' :: l) = skipSp l := by
  rw [skipSp, skipSp, List.dropWhile_cons_of_pos]
  simp

theorem parseValueRegion_quoted (s : String) :
    parseValueRegion (' ' :: goQuoteStr s) = some (.str s.toList) := by
  rw [parseValueRegion, if_neg (by simp), if_neg (by simp)]
  rw [show skipSp (' ' :: goQuoteStr s) = goQuoteStr s by
    rw [skipSp_cons_sp, skipSp_no_sp _ (by rw [goQuoteStr]; simp)]]
  rw [goQuoteStr]
  dsimp only
  rw [if_pos rfl,
    show goQuoteInner s.toList ++ ['"'] = goQuoteInner s.toList ++ '"' :: [] from rfl,
    dqCore_quote]
  simp

theorem parseValueRegion_plain (s : String) (h : plainSafe s = true) :
    parseValueRegion (' ' :: s.toList) = some (.str s.toList) := by
  obtain ⟨c, rest, hs, hAlpha, hAll, hKw⟩ := plainSafe_shape s h
  have hq : c ≠ '"' := fun heq => by rw [heq] at hAlpha; exact absurd hAlpha (by decide)
  have hb : c ≠ '[' := fun heq => by rw [heq] at hAlpha; exact absurd hAlpha (by decide)
  have hcsp : c ≠ ' ' := fun heq => by rw [heq] at hAlpha; exact absurd hAlpha (by decide)
  rw [parseValueRegion, if_neg (by simp), if_neg (by simp)]
  rw [show skipSp (' ' :: s.toList) = s.toList by
    rw [skipSp_cons_sp, skipSp_no_sp _ (by rw [hs]; simpa using hcsp)]]
  rw [hs]
  dsimp only
  rw [if_neg hq, if_neg hb, ← hs, plainVal_safe s h]

theorem parseValueRegion_flow (ps : List String) :
    parseValueRegion (' ' :: '[' :: (joinQuoted ps ++ [']'])) =
      some (.lst (ps.map (fun p => p.toList))) := by
  rw [parseValueRegion, if_neg (by simp), if_neg (by simp)]
  rw [show skipSp (' ' :: '[' :: (joinQuoted ps ++ [']'])) = '[' :: (joinQuoted ps ++ [']']) by
    rw [skipSp_cons_sp, skipSp_no_sp _ (by simp)]]
  dsimp only
  rw [if_neg (by decide), if_pos rfl]
  cases ps with
  | nil =>
    rw [show (joinQuoted [] ++ [']'] : List Char) = [']'] from rfl, flowList]
    rw [show skipSp [']'] = [']'] from by rw [skipSp_no_sp] <;> simp]
    simp
  | cons p rest =>
    rw [joinQuoted_flowTail p rest, flowList]
    rw [show skipSp ('"' :: flowTail (p :: rest)) = '"' :: flowTail (p :: rest) from by
      rw [skipSp_no_sp] <;> simp]
    dsimp only
    rw [if_neg (by decide), if_pos rfl]
    rw [flowItems_join (p :: rest) ((flowTail (p :: rest)).length + 1) (by simp)
      (Nat.le_succ_of_le (flowTail_len _))]
    simp

theorem yamlLine_nil (acc : Identity) : yamlLine acc [] = some acc := by
  rw [yamlLine, if_pos rfl]

theorem yamlLine_comment (acc : Identity) (l : List Char) (h : l.head? = some '#') :
    yamlLine acc l = some acc := by
  have hne : l ≠ [] := by
    intro heq
    rw [heq] at h
    simp at h
  rw [yamlLine, if_neg hne, if_pos h]

theorem yamlLine_gen (acc : Identity) (key : List Char) (v : List Char) (val : YVal)
    (hk : ':' ∉ key) (hne : key ≠ []) (hhash : key.head? ≠ some '#')
    (hval : parseValueRegion (' ' :: v) = some val) :
    yamlLine acc (key ++ ':' :: ' ' :: v) = assignField acc key val := by
  have hl : (key ++ ':' :: ' ' :: v) ≠ [] := by cases key <;> simp
  have hh : (key ++ ':' :: ' ' :: v).head? ≠ some '#' := by
    cases key with
    | nil => exact absurd rfl hne
    | cons a b => simpa using hhash
  rw [yamlLine, if_neg hl, if_neg hh, splitColon_key key (' ' :: v) hk]
  dsimp only
  rw [hval]

theorem foldStep (acc acc2 : Identity) (l : List Char) (rest : List (List Char))
    (h : yamlLine acc l = some acc2) :
    yamlLinesFold acc (l :: rest) = yamlLinesFold acc2 rest := by
  rw [yamlLinesFold, h]

theorem fmLines_OK (id : Identity) (hS : plainSafe id.Status = true)
    (hP : plainSafe id.ProtoStatus = true) :
    ∀ l ∈ fmLines id, ('\n' ∉ l) ∧ l.head? ≠ some '-' := by
  obtain ⟨cS, rS, hsS, _, hAllS, _⟩ := plainSafe_shape id.Status hS
  obtain ⟨cP, rP, hsP, _, hAllP, _⟩ := plainSafe_shape id.ProtoStatus hP
  intro l hl
  simp only [fmLines, List.mem_cons, List.not_mem_nil, or_false] at hl
  rcases hl with rfl | rfl | rfl | rfl | rfl | rfl | rfl | rfl | rfl | rfl | rfl | rfl |
    rfl | rfl | rfl | rfl | rfl | rfl | rfl | rfl | rfl
  · exact ⟨by decide, by decide⟩
  · exact ⟨fun hm => (List.mem_append.mp hm).elim (fun h => absurd h (by decide))
      (goQuoteStr_no_nl _), by show (some 'u' : Option Char) ≠ some '-'; decide⟩
  · exact ⟨fun hm => (List.mem_append.mp hm).elim (fun h => absurd h (by decide))
      (goQuoteStr_no_nl _), by show (some 'g' : Option Char) ≠ some '-'; decide⟩
  · exact ⟨fun hm => (List.mem_append.mp hm).elim (fun h => absurd h (by decide))
      (goQuoteStr_no_nl _), by show (some 'f' : Option Char) ≠ some '-'; decide⟩
  · exact ⟨fun hm => (List.mem_append.mp hm).elim (fun h => absurd h (by decide))
      (goQuoteStr_no_nl _), by show (some 'm' : Option Char) ≠ some '-'; decide⟩
  · exact ⟨fun hm => (List.mem_append.mp hm).elim (fun h => absurd h (by decide))
      (goQuoteStr_no_nl _), by show (some 'c' : Option Char) ≠ some '-'; decide⟩
  · exact ⟨fun hm => (List.mem_append.mp hm).elim (fun h => absurd h (by decide))
      (goQuoteStr_no_nl _), by show (some 'c' : Option Char) ≠ some '-'; decide⟩
  · exact ⟨fun hm => (List.mem_append.mp hm).elim (fun h => absurd h (by decide))
      (fun h => (plainSafeChar_facts _ (hAllS _ h)).1 rfl),
      by show (some 's' : Option Char) ≠ some '-'; decide⟩
  · exact ⟨fun hm => (List.mem_append.mp hm).elim (fun h => absurd h (by decide))
      (goQuoteStr_no_nl _), by show (some 'b' : Option Char) ≠ some '-'; decide⟩
  · exact ⟨by decide, by decide⟩
  · exact ⟨by decide, by decide⟩
  · exact ⟨fun hm => (List.mem_append.mp hm).elim (fun h => absurd h (by decide))
      (fun h => (List.mem_append.mp h).elim (joinQuoted_no_nl _)
        (fun h2 => absurd h2 (by decide))),
      by show (some 'p' : Option Char) ≠ some '-'; decide⟩
  · exact ⟨fun hm => (List.mem_append.mp hm).elim (fun h => absurd h (by decide))
      (goQuoteStr_no_nl _), by show (some 'r' : Option Char) ≠ some '-'; decide⟩
  · exact ⟨by decide, by decide⟩
  · exact ⟨by decide, by decide⟩
  · exact ⟨fun hm => (List.mem_append.mp hm).elim (fun h => absurd h (by decide))
      (fun h => (List.mem_append.mp h).elim (joinQuoted_no_nl _)
        (fun h2 => absurd h2 (by decide))),
      by show (some 'a' : Option Char) ≠ some '-'; decide⟩
  · exact ⟨by decide, by decide⟩
  · exact ⟨by decide, by decide⟩
  · exact ⟨fun hm => (List.mem_append.mp hm).elim (fun h => absurd h (by decide))
      (goQuoteStr_no_nl _), by show (some 'g' : Option Char) ≠ some '-'; decide⟩
  · exact ⟨fun hm => (List.mem_append.mp hm).elim (fun h => absurd h (by decide))
      (goQuoteStr_no_nl _), by show (some 'l' : Option Char) ≠ some '-'; decide⟩
  · exact ⟨fun hm => (List.mem_append.mp hm).elim (fun h => absurd h (by decide))
      (fun h => (plainSafeChar_facts _ (hAllP _ h)).1 rfl),
      by show (some 'p' : Option Char) ≠ some '-'; decide⟩

/-- assignField at a concrete string-valued key reduces to a record update. -/
theorem assignField_uuid (acc : Identity) (s : String) :
    assignField acc ("uuid".toList) (.str s.toList) = some { acc with UUID := s } := rfl

theorem assignField_given (acc : Identity) (s : String) :
    assignField acc ("given_name".toList) (.str s.toList) = some { acc with GivenName := s } := rfl

theorem assignField_family (acc : Identity) (s : String) :
    assignField acc ("family_name".toList) (.str s.toList) = some { acc with FamilyName := s } := rfl

theorem assignField_motto (acc : Identity) (s : String) :
    assignField acc ("motto".toList) (.str s.toList) = some { acc with Motto := s } := rfl

theorem assignField_composer (acc : Identity) (s : String) :
    assignField acc ("composer".toList) (.str s.toList) = some { acc with Composer := s } := rfl

theorem assignField_clade (acc : Identity) (s : String) :
    assignField acc ("clade".toList) (.str s.toList) = some { acc with Clade := s } := rfl

theorem assignField_status (acc : Identity) (s : String) :
    assignField acc ("status".toList) (.str s.toList) = some { acc with Status := s } := rfl

theorem assignField_born (acc : Identity) (s : String) :
    assignField acc ("born".toList) (.str s.toList) = some { acc with Born := s } := rfl

theorem assignField_repro (acc : Identity) (s : String) :
    assignField acc ("reproduction".toList) (.str s.toList) = some { acc with Reproduction := s } := rfl

theorem assignField_genby (acc : Identity) (s : String) :
    assignField acc ("generated_by".toList) (.str s.toList) = some { acc with GeneratedBy := s } := rfl

theorem assignField_lang (acc : Identity) (s : String) :
    assignField acc ("lang".toList) (.str s.toList) = some { acc with Lang := s } := rfl

theorem assignField_proto (acc : Identity) (s : String) :
    assignField acc ("proto_status".toList) (.str s.toList) = some { acc with ProtoStatus := s } := rfl

theorem assignField_parents (acc : Identity) (ps : List String) :
    assignField acc ("parents".toList) (.lst (ps.map (fun p => p.toList))) =
      some { acc with Parents := ps } := by
  rw [show assignField acc ("parents".toList) (.lst (ps.map (fun p => p.toList))) =
    (lstField (.lst (ps.map (fun p => p.toList)))).map
      (fun s => { acc with Parents := s }) from rfl]
  simp only [lstField, List.map_map, Option.map_some]
  rw [show (fun l => (⟨l⟩ : String)) ∘ (fun p : String => p.toList) = fun p => p by
    funext p
    simp [stringMk_toList]]
  simp

theorem assignField_aliases (acc : Identity) (ps : List String) :
    assignField acc ("aliases".toList) (.lst (ps.map (fun p => p.toList))) =
      some { acc with Aliases := ps } := by
  rw [show assignField acc ("aliases".toList) (.lst (ps.map (fun p => p.toList))) =
    (lstField (.lst (ps.map (fun p => p.toList)))).map
      (fun s => { acc with Aliases := s }) from rfl]
  simp only [lstField, List.map_map, Option.map_some]
  rw [show (fun l => (⟨l⟩ : String)) ∘ (fun p : String => p.toList) = fun p => p by
    funext p
    simp [stringMk_toList]]
  simp

set_option maxHeartbeats 4000000 in
theorem yamlUnmarshal_fmLines (id : Identity) (hS : plainSafe id.Status = true)
    (hP : plainSafe id.ProtoStatus = true) :
    yamlUnmarshal (nlJoin (fmLines id)) = some id := by
  have hq : ∀ (acc : Identity) (key : List Char) (s : String),
      ':' ∉ key → key ≠ [] → key.head? ≠ some '#' →
      yamlLine acc (key ++ ':' :: ' ' :: goQuoteStr s) = assignField acc key (.str s.toList) :=
    fun acc key s h1 h2 h3 => yamlLine_gen acc key _ _ h1 h2 h3 (parseValueRegion_quoted s)
  rw [yamlUnmarshal,
    splitLines_nlJoin _ (by simp [fmLines]) (fun l hl => (fmLines_OK id hS hP l hl).1),
    fmLines]
  refine (foldStep _ _ ("# Holon Identity v1".toList) _
    (yamlLine_comment _ _ rfl)).trans ?_
  refine (foldStep _ _ ("uuid".toList ++ ':' :: ' ' :: goQuoteStr id.UUID) _
    ((hq _ _ _ (by decide) (by decide) (by decide)).trans (assignField_uuid _ _))).trans ?_
  refine (foldStep _ _ ("given_name".toList ++ ':' :: ' ' :: goQuoteStr id.GivenName) _
    ((hq _ _ _ (by decide) (by decide) (by decide)).trans (assignField_given _ _))).trans ?_
  refine (foldStep _ _ ("family_name".toList ++ ':' :: ' ' :: goQuoteStr id.FamilyName) _
    ((hq _ _ _ (by decide) (by decide) (by decide)).trans (assignField_family _ _))).trans ?_
  refine (foldStep _ _ ("motto".toList ++ ':' :: ' ' :: goQuoteStr id.Motto) _
    ((hq _ _ _ (by decide) (by decide) (by decide)).trans (assignField_motto _ _))).trans ?_
  refine (foldStep _ _ ("composer".toList ++ ':' :: ' ' :: goQuoteStr id.Composer) _
    ((hq _ _ _ (by decide) (by decide) (by decide)).trans (assignField_composer _ _))).trans ?_
  refine (foldStep _ _ ("clade".toList ++ ':' :: ' ' :: goQuoteStr id.Clade) _
    ((hq _ _ _ (by decide) (by decide) (by decide)).trans (assignField_clade _ _))).trans ?_
  refine (foldStep _ _ ("status".toList ++ ':' :: ' ' :: id.Status.toList) _
    ((yamlLine_gen _ _ _ _ (by decide) (by decide) (by decide)
      (parseValueRegion_plain id.Status hS)).trans (assignField_status _ _))).trans ?_
  refine (foldStep _ _ ("born".toList ++ ':' :: ' ' :: goQuoteStr id.Born) _
    ((hq _ _ _ (by decide) (by decide) (by decide)).trans (assignField_born _ _))).trans ?_
  refine (foldStep _ _ [] _ (yamlLine_nil _)).trans ?_
  refine (foldStep _ _ ("# Lineage".toList) _
    (yamlLine_comment _ _ rfl)).trans ?_
  refine (foldStep _ _ ("parents".toList ++ ':' :: ' ' ::
      ('[' :: (joinQuoted id.Parents ++ [']']))) _
    ((yamlLine_gen _ _ _ _ (by decide) (by decide) (by decide)
      (parseValueRegion_flow id.Parents)).trans (assignField_parents _ _))).trans ?_
  refine (foldStep _ _ ("reproduction".toList ++ ':' :: ' ' :: goQuoteStr id.Reproduction) _
    ((hq _ _ _ (by decide) (by decide) (by decide)).trans (assignField_repro _ _))).trans ?_
  refine (foldStep _ _ [] _ (yamlLine_nil _)).trans ?_
  refine (foldStep _ _ ("# Optional".toList) _
    (yamlLine_comment _ _ rfl)).trans ?_
  refine (foldStep _ _ ("aliases".toList ++ ':' :: ' ' ::
      ('[' :: (joinQuoted id.Aliases ++ [']']))) _
    ((yamlLine_gen _ _ _ _ (by decide) (by decide) (by decide)
      (parseValueRegion_flow id.Aliases)).trans (assignField_aliases _ _))).trans ?_
  refine (foldStep _ _ [] _ (yamlLine_nil _)).trans ?_
  refine (foldStep _ _ ("# Metadata".toList) _
    (yamlLine_comment _ _ rfl)).trans ?_
  refine (foldStep _ _ ("generated_by".toList ++ ':' :: ' ' :: goQuoteStr id.GeneratedBy) _
    ((hq _ _ _ (by decide) (by decide) (by decide)).trans (assignField_genby _ _))).trans ?_
  refine (foldStep _ _ ("lang".toList ++ ':' :: ' ' :: goQuoteStr id.Lang) _
    ((hq _ _ _ (by decide) (by decide) (by decide)).trans (assignField_lang _ _))).trans ?_
  refine (foldStep _ _ ("proto_status".toList ++ ':' :: ' ' :: id.ProtoStatus.toList) _
    ((yamlLine_gen _ _ _ _ (by decide) (by decide) (by decide)
      (parseValueRegion_plain id.ProtoStatus hP)).trans (assignField_proto _ _))).trans ?_
  rfl

/-- Character-level round trip: parseFMChars on the rendered template
recovers the identity, the template body, and no error. -/
theorem parseFMChars_render (id : Identity) (hS : plainSafe id.Status = true)
    (hP : plainSafe id.ProtoStatus = true) :
    parseFMChars (renderHolonMD id).toList = (id, holonBody id, none) := by
  have hOK := fmLines_OK id hS hP
  rw [show (renderHolonMD id).toList =
    '-' :: '-' :: '-' :: '\n' ::
      (nlJoin (fmLines id) ++ '\n' :: '-' :: '-' :: '-' :: holonBody id) from rfl]
  rw [parseFMChars, if_pos (show List.take 3 ('-' :: '-' :: '-' :: '\n' ::
    (nlJoin (fmLines id) ++ '\n' :: '-' :: '-' :: '-' :: holonBody id)) =
    "---".toList from rfl)]
  simp only [List.drop_succ_cons, List.drop_zero, List.head?_cons, Option.some.injEq,
    reduceIte]
  rw [idx_nlJoin (fmLines id) (holonBody id) (by simp [fmLines]) hOK]
  dsimp only
  rw [show (nlJoin (fmLines id) ++ '\n' :: '-' :: '-' :: '-' :: holonBody id).take
      (nlJoin (fmLines id)).length = nlJoin (fmLines id) from by
    rw [List.take_left]]
  rw [show (nlJoin (fmLines id) ++ '\n' :: '-' :: '-' :: '-' :: holonBody id).drop
      ((nlJoin (fmLines id)).length + 4) = holonBody id from by
    rw [show (nlJoin (fmLines id) ++ '\n' :: '-' :: '-' :: '-' :: holonBody id) =
      (nlJoin (fmLines id) ++ ['\n', '-', '-', '-']) ++ holonBody id by simp,
      show (nlJoin (fmLines id)).length + 4 =
        (nlJoin (fmLines id) ++ ['\n', '-', '-', '-']).length by simp,
      List.drop_left]]
  rw [yamlUnmarshal_fmLines id hS hP]

/-- C1 counterexample: the round trip fails as stated for every Identity.
The status field is rendered unquoted (holonTemplate writes the bare
value), so a Status containing a newline breaks the frontmatter: decoding
the rendered file does not return the original record. -/
theorem holon_roundtrip_cex :
    (ParseFrontmatter (renderHolonMD ({ Status := "a\nb" } : Identity))).1 ≠
      ({ Status := "a\nb" } : Identity) := by decide

/-- C1 (amended): rendering an Identity with holonTemplate and decoding
the result with ParseFrontmatter is the identity on records whose Status
and ProtoStatus are plain-safe YAML scalars (nonempty, starting with a
letter, containing only letters, digits, dash, underscore, dot, slash,
colon-free, and not a YAML null/bool keyword) — in particular every enum
value the program writes.  The decode also reports no error. -/
theorem holon_roundtrip (id : Identity) (hS : plainSafe id.Status = true)
    (hP : plainSafe id.ProtoStatus = true) :
    (ParseFrontmatter (renderHolonMD id)).1 = id ∧
      (ParseFrontmatter (renderHolonMD id)).2.2 = none := by
  have h := parseFMChars_render id hS hP
  rw [ParseFrontmatter, h]
  exact ⟨rfl, rfl⟩

/-- C1 witness: the round trip at a concrete identity. -/
theorem holon_roundtrip_witness :
    (ParseFrontmatter (renderHolonMD rtSample)).1 = rtSample ∧
      (ParseFrontmatter (renderHolonMD rtSample)).2.2 = none :=
  holon_roundtrip rtSample (by decide) (by decide)
